import Mathlib

/-!
Verification of the fleet-coordination core of the GoatPSGHackathon_22pt26
repository: the lane reservation store (`src/models/traffic_manager.py`),
the time-aware A* path search (`src/utils/robot_pathfinder.py`), the plain
A* search (`A*algorithm.py`), the navigation-graph loader
(`src/models/navigation_graph.py`) and the battery dynamics of
(`src/utils/robot.py`).

Modelling conventions:
* Python `float` time stamps, distances and battery levels are modelled as
  exact rationals `ℚ` (the code only adds, divides, takes min/max of and
  compares them).
* A lane identity `"u-v"` is modelled as the pair `(u, v)`; the source
  derives the opposite lane by splitting the string on `'-'`, which for the
  dash-free vertex identifiers produced by `get_lane_id`/`str(idx)` is
  exactly the swap of the pair.
* The Python dict `lane_reservations` is modelled as a total function from
  lane identities to reservation lists, an absent key being the empty
  list.  Inserting an empty list for a missing key (traffic_manager.py
  lines 9-10) is therefore invisible; it changes no reservation triple, no
  conflict decision, and not `lane_directions`.
* `waiting_queues` is omitted: no claim below concerns it.
-/

/-- A reservation: (holder robot id, start time, end time). -/
abbrev Res : Type := String × ℚ × ℚ

/-- A lane identity: ordered pair of vertex ids (source `"from-to"`). -/
abbrev LaneId : Type := String × String

/-- State of `TrafficManager` (traffic_manager.py lines 1-6), without the
waiting queues which no claim mentions. -/
structure TM where
  res : LaneId → List Res
  dirs : LaneId → Option String
  time : ℚ

/-- The freshly constructed `TrafficManager()`. -/
def TM.empty : TM :=
  { res := fun _ => [], dirs := fun _ => none, time := 0 }

/-- `max(start_time, res_start) < min(end_time, res_end)` (traffic_manager.py
lines 15 and 22): the two half-open intervals intersect. -/
def overlapB (s1 e1 s2 e2 : ℚ) : Bool :=
  decide (max s1 s2 < min e1 e2)

/-- The opposite lane identity: `lane_id.split('-')[1] + '-' +
lane_id.split('-')[0]` (traffic_manager.py line 12), i.e. the swapped
pair. -/
def opposite (l : LaneId) : LaneId := (l.2, l.1)

/-- `TrafficManager.reserve_lane` (traffic_manager.py lines 8-29).
Returns the boolean result together with the updated store.  The loop over
the opposite lane denies on any overlapping reservation (no holder check);
the loop over the requested lane skips reservations of the requesting
robot itself.  On success the triple is appended and `lane_directions` is
set. -/
def reserveLane (tm : TM) (lane : LaneId) (robot : String) (s e : ℚ) :
    Bool × TM :=
  if (tm.res (opposite lane)).any (fun r => overlapB s e r.2.1 r.2.2) then
    (false, tm)
  else if (tm.res lane).any
      (fun r => decide (r.1 ≠ robot) && overlapB s e r.2.1 r.2.2) then
    (false, tm)
  else
    (true,
      { tm with
        res := fun l => if l = lane then tm.res lane ++ [(robot, s, e)]
          else tm.res l,
        dirs := fun l => if l = lane then some robot else tm.dirs l })

/-- `TrafficManager.update_time` (traffic_manager.py lines 53-64): set the
current time and keep, on every lane, exactly the reservations whose end
time is strictly later; a lane whose list becomes empty is dropped
together with its `lane_directions` entry. -/
def updateTime (tm : TM) (t : ℚ) : TM :=
  { time := t,
    res := fun l => (tm.res l).filter (fun r => decide (t < r.2.2)),
    dirs := fun l =>
      if (tm.res l).filter (fun r => decide (t < r.2.2)) = [] then none
      else tm.dirs l }

/-- An operation applied to the store by the rest of the system. -/
inductive TMOp : Type
  | reserve (lane : LaneId) (robot : String) (s e : ℚ)
  | advance (t : ℚ)

/-- Apply one operation (a denied `reserve_lane` leaves the store as is). -/
def TM.apply (tm : TM) : TMOp → TM
  | .reserve lane robot s e => (reserveLane tm lane robot s e).2
  | .advance t => updateTime tm t

/-- Run a sequence of operations from a store. -/
def TM.run (tm : TM) (ops : List TMOp) : TM :=
  ops.foldl TM.apply tm

/-- Two reservations by different holders with intersecting half-open
intervals. -/
def Conflict (r1 r2 : Res) : Prop :=
  r1.1 ≠ r2.1 ∧ max r1.2.1 r2.2.1 < min r1.2.2 r2.2.2

/-- The head-on exclusion invariant: on any lane, and across a lane and
its opposite, no two reservations of different holders overlap in time. -/
def HeadOnInv (tm : TM) : Prop :=
  ∀ l : LaneId, (∀ r1 ∈ tm.res l, ∀ r2 ∈ tm.res l, ¬ Conflict r1 r2) ∧
    (∀ r1 ∈ tm.res l, ∀ r2 ∈ tm.res (opposite l), ¬ Conflict r1 r2)

lemma overlapB_eq_true {s1 e1 s2 e2 : ℚ} :
    overlapB s1 e1 s2 e2 = true ↔ max s1 s2 < min e1 e2 := by
  simp [overlapB]

lemma opposite_opposite (l : LaneId) : opposite (opposite l) = l := rfl

/-- `reserve_lane` either denies and leaves the store unchanged, or
returns `true`, appends the new triple to the requested lane and points
`lane_directions` at the robot. -/
lemma reserveLane_cases (tm : TM) (lane : LaneId) (robot : String)
    (s e : ℚ) :
    ((reserveLane tm lane robot s e).1 = false ∧
      (reserveLane tm lane robot s e).2 = tm) ∨
    ((reserveLane tm lane robot s e).1 = true ∧
      ((reserveLane tm lane robot s e).2.res = fun l =>
        if l = lane then tm.res lane ++ [(robot, s, e)] else tm.res l) ∧
      ((reserveLane tm lane robot s e).2.dirs = fun l =>
        if l = lane then some robot else tm.dirs l) ∧
      (reserveLane tm lane robot s e).2.time = tm.time) := by
  unfold reserveLane
  by_cases h1 : (tm.res (opposite lane)).any
      (fun r => overlapB s e r.2.1 r.2.2) = true
  · rw [if_pos h1]
    exact Or.inl ⟨rfl, rfl⟩
  · by_cases h2 : (tm.res lane).any
        (fun r => decide (r.1 ≠ robot) && overlapB s e r.2.1 r.2.2) = true
    · rw [if_neg h1, if_pos h2]
      exact Or.inl ⟨rfl, rfl⟩
    · right
      rw [if_neg h1, if_neg h2]
      exact ⟨rfl, rfl, rfl, rfl⟩

/-- On success, the checks of `reserve_lane` really passed: no overlap
with any reservation on the opposite lane, and no overlap with a
different-holder reservation on the lane itself. -/
lemma reserveLane_success_checks {tm : TM} {lane : LaneId} {robot : String}
    {s e : ℚ} (h : (reserveLane tm lane robot s e).1 = true) :
    (∀ r ∈ tm.res (opposite lane), ¬ (max s r.2.1 < min e r.2.2)) ∧
      (∀ r ∈ tm.res lane, r.1 ≠ robot → ¬ (max s r.2.1 < min e r.2.2)) := by
  unfold reserveLane at h
  by_cases h1 : (tm.res (opposite lane)).any
      (fun r => overlapB s e r.2.1 r.2.2) = true
  · rw [if_pos h1] at h
    exact absurd h (by simp)
  · rw [if_neg h1] at h
    by_cases h2 : (tm.res lane).any
        (fun r => decide (r.1 ≠ robot) && overlapB s e r.2.1 r.2.2) = true
    · rw [if_pos h2] at h
      exact absurd h (by simp)
    · constructor
      · intro r hr hov
        exact h1 (List.any_eq_true.mpr ⟨r, hr, overlapB_eq_true.mpr hov⟩)
      · intro r hr hne hov
        refine h2 (List.any_eq_true.mpr ⟨r, hr, ?_⟩)
        simp only [Bool.and_eq_true, decide_eq_true_eq]
        exact ⟨hne, overlapB_eq_true.mpr hov⟩

/-- Conversely, if both checks pass then `reserve_lane` succeeds. -/
lemma reserveLane_checks_success {tm : TM} {lane : LaneId} {robot : String}
    {s e : ℚ}
    (hopp : ∀ r ∈ tm.res (opposite lane), ¬ (max s r.2.1 < min e r.2.2))
    (hself : ∀ r ∈ tm.res lane, r.1 ≠ robot → ¬ (max s r.2.1 < min e r.2.2)) :
    (reserveLane tm lane robot s e).1 = true := by
  unfold reserveLane
  have h1 : ¬ ((tm.res (opposite lane)).any
      (fun r => overlapB s e r.2.1 r.2.2) = true) := by
    intro hc
    obtain ⟨r, hr, hov⟩ := List.any_eq_true.mp hc
    exact hopp r hr (overlapB_eq_true.mp hov)
  have h2 : ¬ ((tm.res lane).any
      (fun r => decide (r.1 ≠ robot) && overlapB s e r.2.1 r.2.2) = true) := by
    intro hc
    obtain ⟨r, hr, hov⟩ := List.any_eq_true.mp hc
    simp only [Bool.and_eq_true, decide_eq_true_eq] at hov
    exact hself r hr hov.1 (overlapB_eq_true.mp hov.2)
  rw [if_neg h1, if_neg h2]

lemma conflict_symm {r1 r2 : Res} (h : Conflict r1 r2) : Conflict r2 r1 := by
  obtain ⟨hne, hov⟩ := h
  exact ⟨fun h' => hne h'.symm, by rw [max_comm, min_comm]; exact hov⟩

/-- `reserve_lane` preserves the head-on invariant. -/
lemma headOnInv_reserve {tm : TM} (hinv : HeadOnInv tm) (lane : LaneId)
    (robot : String) (s e : ℚ) :
    HeadOnInv (reserveLane tm lane robot s e).2 := by
  rcases reserveLane_cases tm lane robot s e with ⟨_, hsame⟩ | ⟨hok, hres, _, _⟩
  · rw [hsame]; exact hinv
  · obtain ⟨hopp, hself⟩ := reserveLane_success_checks hok
    have mem_iff : ∀ (l' : LaneId) (r : Res),
        r ∈ (reserveLane tm lane robot s e).2.res l' ↔
          (r ∈ tm.res l' ∨ (l' = lane ∧ r = (robot, s, e))) := by
      intro l' r
      rw [hres]
      by_cases hl : l' = lane
      · subst hl; simp [List.mem_append]
      · simp [hl]
    have hnew_lane : ∀ r ∈ tm.res lane, ¬ Conflict r (robot, s, e) := by
      intro r hr hc
      obtain ⟨hne, hov⟩ := hc
      rw [max_comm, min_comm] at hov
      exact hself r hr (fun h' => hne (h' ▸ rfl)) hov
    have hnew_lane' : ∀ r ∈ tm.res lane, ¬ Conflict (robot, s, e) r :=
      fun r hr hc => hnew_lane r hr (conflict_symm hc)
    have hnew_opp : ∀ r ∈ tm.res (opposite lane),
        ¬ Conflict (robot, s, e) r := by
      intro r hr hc
      exact hopp r hr hc.2
    have hnew_opp' : ∀ r ∈ tm.res (opposite lane),
        ¬ Conflict r (robot, s, e) :=
      fun r hr hc => hnew_opp r hr (conflict_symm hc)
    intro l
    constructor
    · intro r1 h1 r2 h2
      rw [mem_iff] at h1 h2
      rcases h1 with h1 | ⟨hl1, he1⟩ <;> rcases h2 with h2 | ⟨hl2, he2⟩
      · exact (hinv l).1 r1 h1 r2 h2
      · subst hl2; subst he2; exact hnew_lane r1 h1
      · subst hl1; subst he1; exact hnew_lane' r2 h2
      · subst he1; subst he2; exact fun hc => hc.1 rfl
    · intro r1 h1 r2 h2
      rw [mem_iff] at h1 h2
      rcases h1 with h1 | ⟨hl1, he1⟩ <;> rcases h2 with h2 | ⟨hl2, he2⟩
      · exact (hinv l).2 r1 h1 r2 h2
      · subst he2
        have hl : opposite lane = l := by
          rw [← hl2]
          exact opposite_opposite l
        exact hnew_opp' r1 (by rw [hl]; exact h1)
      · subst hl1; subst he1
        exact hnew_opp r2 h2
      · subst he1; subst he2; exact fun hc => hc.1 rfl

/-- `update_time` preserves the head-on invariant. -/
lemma headOnInv_update {tm : TM} (hinv : HeadOnInv tm) (t : ℚ) :
    HeadOnInv (updateTime tm t) := by
  intro l
  have hsub : ∀ (l' : LaneId) (r : Res),
      r ∈ (updateTime tm t).res l' → r ∈ tm.res l' := by
    intro l' r hr
    exact List.mem_of_mem_filter hr
  exact ⟨fun r1 h1 r2 h2 => (hinv l).1 r1 (hsub _ _ h1) r2 (hsub _ _ h2),
    fun r1 h1 r2 h2 => (hinv l).2 r1 (hsub _ _ h1) r2 (hsub _ _ h2)⟩

lemma headOnInv_empty : HeadOnInv TM.empty := by
  intro l
  constructor <;> intro r1 h1 <;> simp [TM.empty] at h1

lemma headOnInv_run {tm : TM} (hinv : HeadOnInv tm) (ops : List TMOp) :
    HeadOnInv (TM.run tm ops) := by
  induction ops generalizing tm with
  | nil => exact hinv
  | cons op ops ih =>
    rw [TM.run, List.foldl_cons]
    refine ih ?_
    cases op with
    | reserve lane robot s e => exact headOnInv_reserve hinv lane robot s e
    | advance t => exact headOnInv_update hinv t

/-- C1.  Head-on exclusion invariant: in every store state reachable from
the empty `TrafficManager` by any sequence of `reserve_lane` and
`update_time` operations, no two reservations by different holders
overlap, neither on one lane identity nor across a lane identity and its
opposite. -/
theorem C1_head_on_exclusion_invariant (ops : List TMOp) :
    HeadOnInv (TM.run TM.empty ops) :=
  headOnInv_run headOnInv_empty ops

/-- C3.  `update_time(t)` removes exactly the reservations whose end time
satisfies `end <= t`: on every lane a reservation is kept iff its end time
exceeds `t`, and the kept reservations form a sublist of the old list
(each one retained unchanged, in order). -/
theorem C3_update_time_prunes_exactly (tm : TM) (t : ℚ) (l : LaneId) :
    (∀ r : Res, r ∈ (updateTime tm t).res l ↔ r ∈ tm.res l ∧ t < r.2.2) ∧
      ((updateTime tm t).res l).Sublist (tm.res l) := by
  constructor
  · intro r
    simp [updateTime, List.mem_filter]
  · exact List.filter_sublist _

/-- C9.  Denial is atomic: whenever `reserve_lane` returns `False`, the
recorded reservation triples of every lane and the whole
`lane_directions` map are exactly as before the call. -/
theorem C9_denied_reserve_leaves_store_unchanged (tm : TM) (lane : LaneId)
    (robot : String) (s e : ℚ)
    (h : (reserveLane tm lane robot s e).1 = false) :
    (∀ l, (reserveLane tm lane robot s e).2.res l = tm.res l) ∧
      (∀ l, (reserveLane tm lane robot s e).2.dirs l = tm.dirs l) := by
  rcases reserveLane_cases tm lane robot s e with ⟨_, hsame⟩ | ⟨hok, _, _, _⟩
  · rw [hsame]
    exact ⟨fun _ => rfl, fun _ => rfl⟩
  · rw [hok] at h
    cases h

/-- Store obtained by letting robot `a` successfully reserve lane
`("0","1")` over `[0, 10)`, used to exercise a denied reservation. -/
def tmDemo : TM := (reserveLane TM.empty ("0", "1") "a" 0 10).2

theorem C9_denied_reserve_leaves_store_unchanged_witness :
    (reserveLane tmDemo ("0", "1") "b" 5 15).1 = false ∧
      ((∀ l, (reserveLane tmDemo ("0", "1") "b" 5 15).2.res l = tmDemo.res l) ∧
        (∀ l, (reserveLane tmDemo ("0", "1") "b" 5 15).2.dirs l = tmDemo.dirs l)) :=
  ⟨by decide,
    C9_denied_reserve_leaves_store_unchanged tmDemo ("0", "1") "b" 5 15 (by decide)⟩

/-- C2 counterexample.  The claim states that an overlapping reservation
held by the *same* holder on the *opposite* lane never causes denial.  In
the code the opposite-lane loop (traffic_manager.py lines 14-17) has no
holder check: after robot `r` reserves lane `0-1` over `[0,10)`, the very
same robot is denied lane `1-0` over `[0,10)`. -/
theorem C2_counterexample_same_holder_opposite_lane_denied :
    (reserveLane TM.empty ("0", "1") "r" 0 10).1 = true ∧
      (reserveLane (reserveLane TM.empty ("0", "1") "r" 0 10).2
        ("1", "0") "r" 0 10).1 = false := by
  constructor
  · decide
  · decide

/-- C2 amended.  `reserve_lane` succeeds iff no reservation on the
opposite lane (from *any* holder, the requester included) overlaps the
requested interval and no reservation from a *different* holder on the
lane itself overlaps it; on success the interval is appended to the
lane's list, and on denial the store is untouched. -/
theorem C2_reserve_success_characterisation (tm : TM) (lane : LaneId)
    (robot : String) (s e : ℚ) :
    ((reserveLane tm lane robot s e).1 = true ↔
      ((∀ r ∈ tm.res (opposite lane), ¬ (max s r.2.1 < min e r.2.2)) ∧
        (∀ r ∈ tm.res lane, r.1 ≠ robot → ¬ (max s r.2.1 < min e r.2.2)))) ∧
    ((reserveLane tm lane robot s e).1 = true →
      (reserveLane tm lane robot s e).2.res lane
        = tm.res lane ++ [(robot, s, e)]) ∧
    ((reserveLane tm lane robot s e).1 = false →
      (reserveLane tm lane robot s e).2 = tm) := by
  refine ⟨⟨fun h => reserveLane_success_checks h,
    fun h => reserveLane_checks_success h.1 h.2⟩, ?_, ?_⟩
  · intro h
    rcases reserveLane_cases tm lane robot s e with ⟨hf, _⟩ | ⟨_, hres, _, _⟩
    · rw [hf] at h
      cases h
    · rw [hres]
      simp
  · intro h
    rcases reserveLane_cases tm lane robot s e with ⟨_, hsame⟩ | ⟨hok, _, _, _⟩
    · exact hsame
    · rw [hok] at h
      cases h

/-- C5 counterexample.  The claim quantifies over *every* lane id, holder
and interval; it fails on a self-loop lane, whose opposite lane identity
is the lane itself: the second identical call by the same holder on lane
`0-0` is denied by the holder's own first reservation through the
opposite-lane check. -/
theorem C5_counterexample_self_loop_rereserve_denied :
    (reserveLane TM.empty ("0", "0") "r" 0 10).1 = true ∧
      (reserveLane (reserveLane TM.empty ("0", "0") "r" 0 10).2
        ("0", "0") "r" 0 10).1 = false := by
  constructor
  · decide
  · decide

/-- C5 amended.  For a lane whose two endpoints differ: if a holder's
reservation of `[s,e)` succeeded, repeating the very same call succeeds
again, leaves the membership content of every lane's reservation list and
the whole `lane_directions` map unchanged; moreover (in general) any call
overlapping an existing different-holder reservation on the requested
lane returns `False`. -/
theorem C5_same_holder_rereserve_idempotent (tm : TM) (a b robot : String)
    (s e : ℚ) (hab : a ≠ b)
    (h1 : (reserveLane tm (a, b) robot s e).1 = true) :
    ((reserveLane (reserveLane tm (a, b) robot s e).2 (a, b) robot s e).1
        = true ∧
      (∀ (l : LaneId) (x : Res),
        x ∈ (reserveLane (reserveLane tm (a, b) robot s e).2
            (a, b) robot s e).2.res l ↔
          x ∈ (reserveLane tm (a, b) robot s e).2.res l) ∧
      (∀ l : LaneId,
        (reserveLane (reserveLane tm (a, b) robot s e).2
            (a, b) robot s e).2.dirs l
          = (reserveLane tm (a, b) robot s e).2.dirs l)) ∧
    (∀ (tm' : TM) (lane' : LaneId) (robot' : String) (s' e' : ℚ),
      (∃ r ∈ tm'.res lane', r.1 ≠ robot' ∧ max s' r.2.1 < min e' r.2.2) →
      (reserveLane tm' lane' robot' s' e').1 = false) := by
  have hdeny : ∀ (tm' : TM) (lane' : LaneId) (robot' : String) (s' e' : ℚ),
      (∃ r ∈ tm'.res lane', r.1 ≠ robot' ∧ max s' r.2.1 < min e' r.2.2) →
      (reserveLane tm' lane' robot' s' e').1 = false := by
    intro tm' lane' robot' s' e' ⟨r, hr, hne, hov⟩
    cases hres : (reserveLane tm' lane' robot' s' e').1 with
    | false => rfl
    | true => exact absurd hov ((reserveLane_success_checks hres).2 r hr hne)
  obtain ⟨hopp, hself⟩ := reserveLane_success_checks h1
  rcases reserveLane_cases tm (a, b) robot s e with ⟨hf, _⟩ | ⟨_, hres1, hdirs1, _⟩
  · rw [hf] at h1
    cases h1
  set tm1 := (reserveLane tm (a, b) robot s e).2 with htm1
  have hne_opp : opposite (a, b) ≠ (a, b) := by
    simp only [opposite, ne_eq, Prod.mk.injEq, not_and]
    intro h' h2
    exact hab h2
  have h1opp : tm1.res (opposite (a, b)) = tm.res (opposite (a, b)) := by
    simp [hres1, hne_opp]
  have h1lane : tm1.res (a, b) = tm.res (a, b) ++ [(robot, s, e)] := by
    simp [hres1]
  have h2 : (reserveLane tm1 (a, b) robot s e).1 = true := by
    refine reserveLane_checks_success ?_ ?_
    · rw [h1opp]
      exact hopp
    · rw [h1lane]
      intro r hr hner
      rcases List.mem_append.mp hr with hr' | hr'
      · exact hself r hr' hner
      · rw [List.mem_singleton.mp hr'] at hner
        exact absurd rfl hner
  rcases reserveLane_cases tm1 (a, b) robot s e with ⟨hf, _⟩ | ⟨_, hres2, hdirs2, _⟩
  · rw [hf] at h2
    cases h2
  refine ⟨⟨h2, ?_, ?_⟩, hdeny⟩
  · intro l x
    by_cases hl : l = (a, b)
    · subst hl
      simp only [hres2, h1lane, if_pos rfl, if_true, eq_self_iff_true,
        List.mem_append, List.mem_singleton]
      tauto
    · simp [hres2, hl]
  · intro l
    by_cases hl : l = (a, b)
    · subst hl
      simp [hdirs2, hdirs1]
    · simp [hdirs2, hl]

theorem C5_same_holder_rereserve_idempotent_witness :
    ("0" : String) ≠ "1" ∧
      (reserveLane TM.empty ("0", "1") "r" 0 10).1 = true ∧
      (((reserveLane (reserveLane TM.empty ("0", "1") "r" 0 10).2
            ("0", "1") "r" 0 10).1 = true ∧
        (∀ (l : LaneId) (x : Res),
          x ∈ (reserveLane (reserveLane TM.empty ("0", "1") "r" 0 10).2
              ("0", "1") "r" 0 10).2.res l ↔
            x ∈ (reserveLane TM.empty ("0", "1") "r" 0 10).2.res l) ∧
        (∀ l : LaneId,
          (reserveLane (reserveLane TM.empty ("0", "1") "r" 0 10).2
              ("0", "1") "r" 0 10).2.dirs l
            = (reserveLane TM.empty ("0", "1") "r" 0 10).2.dirs l)) ∧
      (∀ (tm' : TM) (lane' : LaneId) (robot' : String) (s' e' : ℚ),
        (∃ r ∈ tm'.res lane', r.1 ≠ robot' ∧ max s' r.2.1 < min e' r.2.2) →
        (reserveLane tm' lane' robot' s' e').1 = false)) :=
  ⟨by decide, by decide,
    C5_same_holder_rereserve_idempotent TM.empty "0" "1" "r" 0 10
      (by decide) (by decide)⟩

/-! ### Battery dynamics (`src/utils/robot.py`) -/

/-- `self.battery_drain_rate = 0.1` (robot.py line 31). -/
def batteryDrainRate : ℚ := 1 / 10

/-- One lane traversal (robot.py lines 120-121):
`battery -= lane_distance * battery_drain_rate; battery = max(0, battery)`. -/
def traverseDrain (b d : ℚ) : ℚ := max 0 (b - d * batteryDrainRate)

/-- One charging tick (robot.py lines 195-197):
`if battery < 100: battery = min(100, battery + 2.0)`. -/
def chargeTick (b : ℚ) : ℚ := if b < 100 then min 100 (b + 2) else b

/-- A battery-affecting event: traversing a lane of the given length, or
one charging tick. -/
inductive BatteryEv : Type
  | traverse (d : ℚ)
  | charge

def batteryStep (b : ℚ) : BatteryEv → ℚ
  | .traverse d => traverseDrain b d
  | .charge => chargeTick b

def runBattery (b : ℚ) (evs : List BatteryEv) : ℚ :=
  evs.foldl batteryStep b

lemma batteryStep_bounds {b : ℚ} (h0 : 0 ≤ b) (h100 : b ≤ 100)
    (ev : BatteryEv) (hd : ∀ d, ev = .traverse d → 0 ≤ d) :
    0 ≤ batteryStep b ev ∧ batteryStep b ev ≤ 100 := by
  cases ev with
  | traverse d =>
    have hd' : 0 ≤ d := hd d rfl
    constructor
    · exact le_max_left 0 _
    · have hsub : b - d * batteryDrainRate ≤ b := by
        have : 0 ≤ d * batteryDrainRate := by
          have : (0:ℚ) ≤ batteryDrainRate := by norm_num [batteryDrainRate]
          exact mul_nonneg hd' this
        linarith
      exact max_le (by norm_num) (le_trans hsub h100)
  | charge =>
    by_cases hlt : b < 100
    · have h1 : batteryStep b .charge = min 100 (b + 2) := by
        simp [batteryStep, chargeTick, hlt]
      rw [h1]
      exact ⟨le_min (by norm_num) (by linarith), min_le_left _ _⟩
    · have h1 : batteryStep b .charge = b := by
        simp [batteryStep, chargeTick, hlt]
      rw [h1]
      exact ⟨h0, h100⟩

lemma runBattery_bounds {b : ℚ} (h0 : 0 ≤ b) (h100 : b ≤ 100)
    (evs : List BatteryEv)
    (hd : ∀ d, BatteryEv.traverse d ∈ evs → 0 ≤ d) :
    0 ≤ runBattery b evs ∧ runBattery b evs ≤ 100 := by
  induction evs generalizing b with
  | nil => exact ⟨h0, h100⟩
  | cons ev evs ih =>
    have hstep := batteryStep_bounds h0 h100 ev
      (fun d hev => hd d (hev ▸ List.mem_cons_self ev evs))
    exact ih hstep.1 hstep.2 (fun d hm => hd d (List.mem_cons_of_mem ev hm))

/-- C8.  Battery stays clamped to `[0,100]`: starting in `[0,100]`, after
any sequence of (nonnegative-length) lane traversals and charging ticks
the battery remains in `[0,100]`; a traversal whose drain reaches or
exceeds the remaining charge leaves the battery at exactly `0`; and a
charging tick never raises the battery above `100`. -/
theorem C8_battery_clamped (b : ℚ) (evs : List BatteryEv)
    (h0 : 0 ≤ b) (h100 : b ≤ 100)
    (hd : ∀ d, BatteryEv.traverse d ∈ evs → 0 ≤ d) :
    (0 ≤ runBattery b evs ∧ runBattery b evs ≤ 100) ∧
      (∀ b' d : ℚ, b' ≤ d * batteryDrainRate → traverseDrain b' d = 0) ∧
      (∀ b' : ℚ, b' ≤ 100 → chargeTick b' ≤ 100) := by
  refine ⟨runBattery_bounds h0 h100 evs hd, ?_, ?_⟩
  · intro b' d hle
    have : b' - d * batteryDrainRate ≤ 0 := by linarith
    simpa [traverseDrain] using this
  · intro b' hb'
    by_cases hlt : b' < 100
    · simp [chargeTick, hlt]
    · simpa [chargeTick, hlt] using hb'

theorem C8_battery_clamped_witness :
    ((0:ℚ) ≤ 25 ∧ (25:ℚ) ≤ 100 ∧
      (∀ d, BatteryEv.traverse d ∈
        [BatteryEv.traverse 10, BatteryEv.charge] → 0 ≤ d)) ∧
    ((0 ≤ runBattery 25 [BatteryEv.traverse 10, BatteryEv.charge] ∧
        runBattery 25 [BatteryEv.traverse 10, BatteryEv.charge] ≤ 100) ∧
      (∀ b' d : ℚ, b' ≤ d * batteryDrainRate → traverseDrain b' d = 0) ∧
      (∀ b' : ℚ, b' ≤ 100 → chargeTick b' ≤ 100)) := by
  have hd : ∀ d, BatteryEv.traverse d ∈
      [BatteryEv.traverse 10, BatteryEv.charge] → 0 ≤ d := by
    intro d hm
    simp only [List.mem_cons, List.not_mem_nil, or_false] at hm
    rcases hm with h | h
    · cases h
      norm_num
    · cases h
  exact ⟨⟨by norm_num, by norm_num, hd⟩,
    C8_battery_clamped 25 [BatteryEv.traverse 10, BatteryEv.charge]
      (by norm_num) (by norm_num) hd⟩

/-! ### Navigation graph loading (`src/models/navigation_graph.py`)

The JSON document handed to `NavigationGraph.__init__` is modelled as the
Python value produced by `json.load`: objects are insertion-ordered dicts
with unique keys, and JSON `true`/`false` become Python `bool`, which
*is* an `int` for `isinstance` checks.  File-system errors
(`FileNotFoundError`, `JSONDecodeError`) are outside the model, which
starts from the parsed document. -/

inductive JVal : Type
  | jint (n : ℤ)
  | jfloat (q : ℚ)
  | jstr (s : String)
  | jbool (b : Bool)
  | jnull
  | jarr (xs : List JVal)
  | jobj (fields : List (String × JVal))

/-- `isinstance(x, (int, float))` — Python `bool` is a subclass of
`int`, so booleans pass this check. -/
def JVal.isNum : JVal → Bool
  | .jint _ => true
  | .jfloat _ => true
  | .jbool _ => true
  | _ => false

/-- `isinstance(x, int)` (booleans included). -/
def JVal.isInt : JVal → Bool
  | .jint _ => true
  | .jbool _ => true
  | _ => false

def JVal.isObj : JVal → Bool
  | .jobj _ => true
  | _ => false

/-- The numeric value of an `isNum` value (`float(x)`): `float(True)`
is `1.0`.  Junk `0` outside the `isNum` range. -/
def JVal.toQ : JVal → ℚ
  | .jint n => (n : ℚ)
  | .jfloat q => q
  | .jbool b => if b then 1 else 0
  | _ => 0

/-- The integer value of an `isInt` value (`str(x)` is applied to it). -/
def JVal.toZ : JVal → ℤ
  | .jint n => n
  | .jbool b => if b then 1 else 0
  | _ => 0

/-- `float(x)` as a partial operation: defined on ints, floats and bools,
a `TypeError` (`none`) on `None`, lists and dicts.  Python additionally
parses numeric *strings* ("3", "1e5", ...); that string case is not
modelled (`none` here) — no theorem below depends on it. -/
def pyFloat : JVal → Option ℚ
  | .jint n => some (n : ℚ)
  | .jfloat q => some q
  | .jbool b => some (if b then 1 else 0)
  | _ => none

/-- Dict lookup (keys of a parsed JSON object are unique). -/
def lookupField (fields : List (String × JVal)) (k : String) : Option JVal :=
  (fields.find? (fun p => p.1 = k)).map (·.2)

/-- The ways `NavigationGraph.__init__` can abort, keeping what each
exception names.  `badVertex`/`badLane` carry the offending record (the
source's `ValueError` messages interpolate the record/index);
`floatTypeError` is the *unnamed* `TypeError` raised by
`float(lane[2]['speed_limit'])` on a present but non-numeric value —
the one failure that names no record.  `missingKey`/`badShape` collapse
the `KeyError`s of lines 17-29 and the type errors of iterating a
non-list `vertices`/`lanes` value; no theorem below distinguishes
those. -/
inductive LoadErr : Type
  | missingKey (key : String)
  | badShape (what : String)
  | badVertex (idx : ℕ) (vertex : JVal)
  | badLane (lane : JVal)
  | floatTypeError (value : JVal)

/-- The validated graph data (navigation_graph.py lines 31-61):
`self.vertices` (in insertion order, keyed `str(idx)`) and `self.lanes`.
The derived adjacency `self.graph`/`self.reverse_graph` (lines 63-72) is
built after validation and cannot fail; it is not needed by any claim
about construction. -/
structure NavGraph where
  vertices : List (String × (ℚ × ℚ × JVal))
  lanes : List (String × String × ℚ)

/-- Validation of one vertex record (navigation_graph.py lines 32-43):
a list of length ≥ 3 whose first two entries are numbers and whose third
is a dict; the three distinct `ValueError`s all name the record. -/
def checkVertex (idx : ℕ) (v : JVal) : Except LoadErr (ℚ × ℚ × JVal) :=
  match v with
  | .jarr (x :: y :: m :: _) =>
    if x.isNum && y.isNum then
      if m.isObj then .ok (x.toQ, y.toQ, m)
      else .error (.badVertex idx v)
    else .error (.badVertex idx v)
  | _ => .error (.badVertex idx v)

def buildVertices : ℕ → List JVal → Except LoadErr (List (String × (ℚ × ℚ × JVal)))
  | _, [] => .ok []
  | idx, v :: vs =>
    match checkVertex idx v with
    | .error e => .error e
    | .ok fields =>
      match buildVertices (idx + 1) vs with
      | .error e => .error e
      | .ok rest => .ok ((toString idx, fields) :: rest)

/-- Validation of one lane record (navigation_graph.py lines 46-61): a
list of exactly 3 entries, integer endpoints, a dict carrying
`speed_limit`, both endpoint ids present among the vertices — then the
unguarded `float(lane[2]['speed_limit'])`. -/
def checkLane (verts : List (String × (ℚ × ℚ × JVal))) (lv : JVal) :
    Except LoadErr (String × String × ℚ) :=
  match lv with
  | .jarr [f, t, m] =>
    if f.isInt && t.isInt then
      match m with
      | .jobj mfields =>
        match lookupField mfields "speed_limit" with
        | some sl =>
          let fv := toString f.toZ
          let tv := toString t.toZ
          if (verts.any (fun p => p.1 = fv)) && (verts.any (fun p => p.1 = tv)) then
            match pyFloat sl with
            | some q => .ok (fv, tv, q)
            | none => .error (.floatTypeError sl)
          else .error (.badLane lv)
        | none => .error (.badLane lv)
      | _ => .error (.badLane lv)
    else .error (.badLane lv)
  | _ => .error (.badLane lv)

def buildLanes (verts : List (String × (ℚ × ℚ × JVal))) :
    List JVal → Except LoadErr (List (String × String × ℚ))
  | [] => .ok []
  | lv :: ls =>
    match checkLane verts lv with
    | .error e => .error e
    | .ok lane =>
      match buildLanes verts ls with
      | .error e => .error e
      | .ok rest => .ok (lane :: rest)

/-- `NavigationGraph.__init__` from the parsed document (lines 17-61):
unwrap `levels`, take the first level, require `vertices` and `lanes`,
then validate and convert every record.  All-or-nothing by type: the
result is either a complete `NavGraph` or a single error. -/
def buildNavGraph (doc : JVal) : Except LoadErr NavGraph :=
  match doc with
  | .jobj dfields =>
    match lookupField dfields "levels" with
    | none => .error (.missingKey "levels")
    | some levels =>
      match levels with
      | .jobj [] => .error (.missingKey "no levels")
      | .jobj ((_, levelData) :: _) =>
        match levelData with
        | .jobj lfields =>
          match lookupField lfields "vertices" with
          | none => .error (.missingKey "vertices")
          | some vsv =>
            match lookupField lfields "lanes" with
            | none => .error (.missingKey "lanes")
            | some lsv =>
              match vsv, lsv with
              | .jarr vs, .jarr ls =>
                match buildVertices 0 vs with
                | .error e => .error e
                | .ok verts =>
                  match buildLanes verts ls with
                  | .error e => .error e
                  | .ok lanes => .ok ⟨verts, lanes⟩
              | _, _ => .error (.badShape "vertices or lanes not a list")
        | _ => .error (.missingKey "vertices")
      | _ => .error (.missingKey "no levels")
  | _ => .error (.missingKey "levels")

/-- The validation predicate on one vertex record that the claim lists:
a list with at least three entries, numeric coordinates, a dict as
metadata. -/
def vertexOK : JVal → Bool
  | .jarr (x :: y :: m :: _) => x.isNum && y.isNum && m.isObj
  | _ => false

/-- The validation predicate on one lane record that the claim lists:
a three-entry list, integer endpoints, a metadata dict carrying
`speed_limit`, and both endpoint ids present among the vertex keys.
(Float-convertibility of the `speed_limit` value is *not* part of this:
the source never validates it.) -/
def laneOK (verts : List (String × (ℚ × ℚ × JVal))) : JVal → Bool
  | .jarr [f, t, m] =>
    if f.isInt && t.isInt then
      match m with
      | .jobj mfields =>
        match lookupField mfields "speed_limit" with
        | some _ =>
          (verts.any (fun p => p.1 = toString f.toZ)) &&
            (verts.any (fun p => p.1 = toString t.toZ))
        | none => false
      | _ => false
    else false
  | _ => false

/-- The fields extracted from a well-formed vertex record. -/
def vertexFieldsOf : JVal → (ℚ × ℚ × JVal)
  | .jarr (x :: y :: m :: _) => (x.toQ, y.toQ, m)
  | _ => (0, 0, .jnull)

lemma checkVertex_cases (idx : ℕ) (v : JVal) :
    (vertexOK v = true ∧ checkVertex idx v = .ok (vertexFieldsOf v)) ∨
    (vertexOK v = false ∧ checkVertex idx v = .error (.badVertex idx v)) := by
  cases v with
  | jarr xs =>
    match xs with
    | [] => right; exact ⟨rfl, rfl⟩
    | [x] => right; exact ⟨rfl, rfl⟩
    | [x, y] => right; exact ⟨rfl, rfl⟩
    | x :: y :: m :: rest =>
      by_cases hxy : (x.isNum && y.isNum) = true
      · by_cases hm : m.isObj = true
        · left
          exact ⟨by simp [vertexOK, hxy, hm], by simp [checkVertex, hxy, hm, vertexFieldsOf]⟩
        · right
          rw [Bool.not_eq_true] at hm
          exact ⟨by simp [vertexOK, hm], by simp [checkVertex, hxy, hm]⟩
      · right
        rw [Bool.not_eq_true] at hxy
        exact ⟨by simp [vertexOK, hxy], by simp [checkVertex, hxy]⟩
  | jint n => right; exact ⟨rfl, rfl⟩
  | jfloat q => right; exact ⟨rfl, rfl⟩
  | jstr s => right; exact ⟨rfl, rfl⟩
  | jbool b => right; exact ⟨rfl, rfl⟩
  | jnull => right; exact ⟨rfl, rfl⟩
  | jobj fs => right; exact ⟨rfl, rfl⟩

lemma checkLane_cases (verts : List (String × (ℚ × ℚ × JVal))) (lv : JVal) :
    (laneOK verts lv = true ∧
      ((∃ lane, checkLane verts lv = .ok lane ∧
          verts.any (fun p => p.1 = lane.1) = true ∧
          verts.any (fun p => p.1 = lane.2.1) = true) ∨
        (∃ sl, checkLane verts lv = .error (.floatTypeError sl)))) ∨
    (laneOK verts lv = false ∧ checkLane verts lv = .error (.badLane lv)) := by
  cases lv with
  | jarr xs =>
    match xs with
    | [] => right; exact ⟨rfl, rfl⟩
    | [f] => right; exact ⟨rfl, rfl⟩
    | [f, t] => right; exact ⟨rfl, rfl⟩
    | f :: t :: m :: r :: rest => right; exact ⟨rfl, rfl⟩
    | [f, t, m] =>
      by_cases hft : (f.isInt && t.isInt) = true
      · cases m with
        | jobj mfields =>
          cases hsl : lookupField mfields "speed_limit" with
          | none =>
            right
            exact ⟨by simp [laneOK, hft, hsl], by simp [checkLane, hft, hsl]⟩
          | some sl =>
            by_cases hmem : ((verts.any (fun p => p.1 = toString f.toZ)) &&
                (verts.any (fun p => p.1 = toString t.toZ))) = true
            · left
              refine ⟨by simp [laneOK, hft, hsl, hmem], ?_⟩
              cases hpf : pyFloat sl with
              | some q =>
                left
                refine ⟨(toString f.toZ, toString t.toZ, q),
                  by simp [checkLane, hft, hsl, hmem, hpf], ?_, ?_⟩
                · exact And.left (by simpa using hmem)
                · exact And.right (by simpa using hmem)
              | none =>
                right
                exact ⟨sl, by simp [checkLane, hft, hsl, hmem, hpf]⟩
            · right
              rw [Bool.not_eq_true] at hmem
              exact ⟨by simp [laneOK, hft, hsl, hmem], by simp [checkLane, hft, hsl, hmem]⟩
        | jint n => right; exact ⟨by simp [laneOK, hft], by simp [checkLane, hft]⟩
        | jfloat q => right; exact ⟨by simp [laneOK, hft], by simp [checkLane, hft]⟩
        | jstr s => right; exact ⟨by simp [laneOK, hft], by simp [checkLane, hft]⟩
        | jbool b => right; exact ⟨by simp [laneOK, hft], by simp [checkLane, hft]⟩
        | jnull => right; exact ⟨by simp [laneOK, hft], by simp [checkLane, hft]⟩
        | jarr ys => right; exact ⟨by simp [laneOK, hft], by simp [checkLane, hft]⟩
      · right
        rw [Bool.not_eq_true] at hft
        exact ⟨by simp [laneOK, hft], by simp [checkLane, hft]⟩
  | jint n => right; exact ⟨rfl, rfl⟩
  | jfloat q => right; exact ⟨rfl, rfl⟩
  | jstr s => right; exact ⟨rfl, rfl⟩
  | jbool b => right; exact ⟨rfl, rfl⟩
  | jnull => right; exact ⟨rfl, rfl⟩
  | jobj fs => right; exact ⟨rfl, rfl⟩

lemma buildVertices_ok_all :
    ∀ (vs : List JVal) (k : ℕ) (verts : List (String × (ℚ × ℚ × JVal))),
      buildVertices k vs = .ok verts → ∀ v ∈ vs, vertexOK v = true := by
  intro vs
  induction vs with
  | nil => intro k verts h v hv; cases hv
  | cons v vs ih =>
    intro k verts h w hw
    rw [buildVertices] at h
    rcases checkVertex_cases k v with ⟨hok, hc⟩ | ⟨_, hc⟩
    · rw [hc] at h
      cases hbv : buildVertices (k + 1) vs with
      | error e => rw [hbv] at h; cases h
      | ok rest =>
        rw [hbv] at h
        rcases List.mem_cons.mp hw with hw | hw
        · subst hw; exact hok
        · exact ih (k + 1) rest hbv w hw
    · rw [hc] at h; cases h

lemma buildVertices_error_of_bad :
    ∀ (vs : List JVal) (k : ℕ), (∃ v ∈ vs, vertexOK v = false) →
      ∃ e, buildVertices k vs = .error e := by
  intro vs
  induction vs with
  | nil => intro k ⟨v, hv, _⟩; cases hv
  | cons v vs ih =>
    intro k ⟨w, hw, hbad⟩
    rcases checkVertex_cases k v with ⟨hok, hc⟩ | ⟨_, hc⟩
    · rcases List.mem_cons.mp hw with hwv | hwv
      · subst hwv
        rw [hok] at hbad
        cases hbad
      · obtain ⟨e, he⟩ := ih (k + 1) ⟨w, hwv, hbad⟩
        refine ⟨e, ?_⟩
        rw [buildVertices, hc, he]
    · exact ⟨_, by rw [buildVertices, hc]⟩

lemma buildVertices_badVertex :
    ∀ (vs : List JVal) (k i : ℕ) (v : JVal),
      buildVertices k vs = .error (.badVertex i v) →
      ∃ j, i = k + j ∧ vs.get? j = some v ∧ vertexOK v = false := by
  intro vs
  induction vs with
  | nil => intro k i v h; cases h
  | cons v0 vs ih =>
    intro k i v h
    rw [buildVertices] at h
    rcases checkVertex_cases k v0 with ⟨_, hc⟩ | ⟨hbad, hc⟩
    · rw [hc] at h
      cases hbv : buildVertices (k + 1) vs with
      | error e =>
        rw [hbv] at h
        cases h
        obtain ⟨j, hj, hget, hb⟩ := ih (k + 1) i v hbv
        exact ⟨j + 1, by omega, hget, hb⟩
      | ok rest => rw [hbv] at h; cases h
    · rw [hc] at h
      cases h
      exact ⟨0, by omega, rfl, hbad⟩

lemma buildLanes_ok_all :
    ∀ (ls : List JVal) (verts : List (String × (ℚ × ℚ × JVal)))
      (lanes : List (String × String × ℚ)),
      buildLanes verts ls = .ok lanes → ∀ lv ∈ ls, laneOK verts lv = true := by
  intro ls
  induction ls with
  | nil => intro verts lanes h lv hlv; cases hlv
  | cons lv0 ls ih =>
    intro verts lanes h lv hlv
    rw [buildLanes] at h
    rcases checkLane_cases verts lv0 with ⟨hok, _⟩ | ⟨_, hc⟩
    · rcases List.mem_cons.mp hlv with hlv' | hlv'
      · subst hlv'; exact hok
      · cases hc0 : checkLane verts lv0 with
        | error e => rw [hc0] at h; cases h
        | ok lane =>
          rw [hc0] at h
          cases hbl : buildLanes verts ls with
          | error e => rw [hbl] at h; cases h
          | ok rest => exact ih verts rest hbl lv hlv'
    · rw [hc] at h; cases h

lemma buildLanes_ok_refs :
    ∀ (ls : List JVal) (verts : List (String × (ℚ × ℚ × JVal)))
      (lanes : List (String × String × ℚ)),
      buildLanes verts ls = .ok lanes →
      ∀ lane ∈ lanes, verts.any (fun p => p.1 = lane.1) = true ∧
        verts.any (fun p => p.1 = lane.2.1) = true := by
  intro ls
  induction ls with
  | nil =>
    intro verts lanes h lane hlane
    rw [buildLanes] at h
    cases h
    cases hlane
  | cons lv0 ls ih =>
    intro verts lanes h lane hlane
    rw [buildLanes] at h
    cases hc0 : checkLane verts lv0 with
    | error e => rw [hc0] at h; cases h
    | ok lane0 =>
      rw [hc0] at h
      cases hbl : buildLanes verts ls with
      | error e => rw [hbl] at h; cases h
      | ok rest =>
        rw [hbl] at h
        cases h
        rcases List.mem_cons.mp hlane with hl | hl
        · subst hl
          rcases checkLane_cases verts lv0 with ⟨_, hcase⟩ | ⟨_, hc⟩
          · rcases hcase with ⟨lane', hok', hr1, hr2⟩ | ⟨sl, herr⟩
            · rw [hc0] at hok'
              cases hok'
              exact ⟨hr1, hr2⟩
            · rw [hc0] at herr; cases herr
          · rw [hc0] at hc; cases hc
        · exact ih verts rest hbl lane hl

lemma buildLanes_error_of_bad :
    ∀ (ls : List JVal) (verts : List (String × (ℚ × ℚ × JVal))),
      (∃ lv ∈ ls, laneOK verts lv = false) →
      ∃ e, buildLanes verts ls = .error e := by
  intro ls
  induction ls with
  | nil => intro verts ⟨lv, hlv, _⟩; cases hlv
  | cons lv0 ls ih =>
    intro verts ⟨lv, hlv, hbad⟩
    cases hc0 : checkLane verts lv0 with
    | error e => exact ⟨e, by rw [buildLanes, hc0]⟩
    | ok lane0 =>
      rcases List.mem_cons.mp hlv with hl | hl
      · subst hl
        rcases checkLane_cases verts lv with ⟨hok, _⟩ | ⟨_, hc⟩
        · rw [hok] at hbad; cases hbad
        · rw [hc0] at hc; cases hc
      · obtain ⟨e, he⟩ := ih verts ⟨lv, hl, hbad⟩
        exact ⟨e, by rw [buildLanes, hc0, he]⟩

lemma buildLanes_badLane :
    ∀ (ls : List JVal) (verts : List (String × (ℚ × ℚ × JVal))) (lv : JVal),
      buildLanes verts ls = .error (.badLane lv) →
      lv ∈ ls ∧ laneOK verts lv = false := by
  intro ls
  induction ls with
  | nil => intro verts lv h; cases h
  | cons lv0 ls ih =>
    intro verts lv h
    rw [buildLanes] at h
    cases hc0 : checkLane verts lv0 with
    | error e =>
      rw [hc0] at h
      cases h
      rcases checkLane_cases verts lv0 with ⟨_, hcase⟩ | ⟨hbad, hc⟩
      · rcases hcase with ⟨lane', hok', _, _⟩ | ⟨sl, herr⟩
        · rw [hc0] at hok'; cases hok'
        · rw [hc0] at herr
          cases herr
      · rw [hc0] at hc
        cases hc
        exact ⟨List.mem_cons_self _ _, hbad⟩
    | ok lane0 =>
      rw [hc0] at h
      cases hbl : buildLanes verts ls with
      | error e =>
        rw [hbl] at h
        cases h
        obtain ⟨hm, hb⟩ := ih verts lv hbl
        exact ⟨List.mem_cons_of_mem _ hm, hb⟩
      | ok rest => rw [hbl] at h; cases h

lemma buildNavGraph_eq_errV {dfields lfields : List (String × JVal)}
    {name : String} {rest : List (String × JVal)} {vs ls : List JVal}
    {e : LoadErr}
    (hlev : lookupField dfields "levels"
      = some (.jobj ((name, .jobj lfields) :: rest)))
    (hvs : lookupField lfields "vertices" = some (.jarr vs))
    (hls : lookupField lfields "lanes" = some (.jarr ls))
    (hbv : buildVertices 0 vs = .error e) :
    buildNavGraph (.jobj dfields) = .error e := by
  simp [buildNavGraph, hlev, hvs, hls, hbv]

lemma buildNavGraph_eq_errL {dfields lfields : List (String × JVal)}
    {name : String} {rest : List (String × JVal)} {vs ls : List JVal}
    {verts : List (String × (ℚ × ℚ × JVal))} {e : LoadErr}
    (hlev : lookupField dfields "levels"
      = some (.jobj ((name, .jobj lfields) :: rest)))
    (hvs : lookupField lfields "vertices" = some (.jarr vs))
    (hls : lookupField lfields "lanes" = some (.jarr ls))
    (hbv : buildVertices 0 vs = .ok verts)
    (hbl : buildLanes verts ls = .error e) :
    buildNavGraph (.jobj dfields) = .error e := by
  simp [buildNavGraph, hlev, hvs, hls, hbv, hbl]

lemma buildNavGraph_eq_ok {dfields lfields : List (String × JVal)}
    {name : String} {rest : List (String × JVal)} {vs ls : List JVal}
    {verts : List (String × (ℚ × ℚ × JVal))}
    {lanes : List (String × String × ℚ)}
    (hlev : lookupField dfields "levels"
      = some (.jobj ((name, .jobj lfields) :: rest)))
    (hvs : lookupField lfields "vertices" = some (.jarr vs))
    (hls : lookupField lfields "lanes" = some (.jarr ls))
    (hbv : buildVertices 0 vs = .ok verts)
    (hbl : buildLanes verts ls = .ok lanes) :
    buildNavGraph (.jobj dfields) = .ok ⟨verts, lanes⟩ := by
  simp [buildNavGraph, hlev, hvs, hls, hbv, hbl]

lemma buildVertices_error_shape :
    ∀ (vs : List JVal) (k : ℕ) (e : LoadErr),
      buildVertices k vs = .error e → ∃ i v, e = .badVertex i v := by
  intro vs
  induction vs with
  | nil => intro k e h; cases h
  | cons v vs ih =>
    intro k e h
    rw [buildVertices] at h
    rcases checkVertex_cases k v with ⟨_, hc⟩ | ⟨_, hc⟩
    · rw [hc] at h
      cases hbv : buildVertices (k + 1) vs with
      | error e' =>
        rw [hbv] at h
        cases h
        exact ih (k + 1) _ hbv
      | ok rest => rw [hbv] at h; cases h
    · rw [hc] at h
      cases h
      exact ⟨k, v, rfl⟩

lemma buildLanes_error_shape :
    ∀ (ls : List JVal) (verts : List (String × (ℚ × ℚ × JVal))) (e : LoadErr),
      buildLanes verts ls = .error e →
      (∃ lv, e = .badLane lv) ∨ (∃ sl, e = .floatTypeError sl) := by
  intro ls
  induction ls with
  | nil => intro verts e h; cases h
  | cons lv0 ls ih =>
    intro verts e h
    rw [buildLanes] at h
    cases hc0 : checkLane verts lv0 with
    | error e' =>
      rw [hc0] at h
      cases h
      rcases checkLane_cases verts lv0 with ⟨_, hcase⟩ | ⟨_, hc⟩
      · rcases hcase with ⟨lane', hok', _, _⟩ | ⟨sl, herr⟩
        · rw [hc0] at hok'; cases hok'
        · rw [hc0] at herr
          cases herr
          exact Or.inr ⟨sl, rfl⟩
      · rw [hc0] at hc
        cases hc
        exact Or.inl ⟨lv0, rfl⟩
    | ok lane0 =>
      rw [hc0] at h
      cases hbl : buildLanes verts ls with
      | error e' =>
        rw [hbl] at h
        cases h
        exact ih verts _ hbl
      | ok rest => rw [hbl] at h; cases h

/-- C7 amended.  For a document with the expected top-level shape,
construction is all-or-nothing and validating: on success every vertex
record is well formed and every lane passes the shape checks and
references existing vertices (also at the level of the returned graph);
a malformed vertex or lane record forces an error; a `badVertex` or
`badLane` error really names an offending record of the document.  The
one deviation from the claim as stated: a lane whose `speed_limit` is
present but not a number aborts construction with an *unnamed*
`TypeError` from `float()` rather than a validation error naming the
record (see the counterexample). -/
theorem C7_graph_construction_all_or_nothing
    (dfields lfields : List (String × JVal)) (name : String)
    (rest : List (String × JVal)) (vs ls : List JVal)
    (hlev : lookupField dfields "levels"
      = some (.jobj ((name, .jobj lfields) :: rest)))
    (hvs : lookupField lfields "vertices" = some (.jarr vs))
    (hls : lookupField lfields "lanes" = some (.jarr ls)) :
    (∀ g, buildNavGraph (.jobj dfields) = .ok g →
      (∀ v ∈ vs, vertexOK v = true) ∧
      (∀ lv ∈ ls, laneOK g.vertices lv = true) ∧
      (∀ lane ∈ g.lanes, g.vertices.any (fun p => p.1 = lane.1) = true ∧
        g.vertices.any (fun p => p.1 = lane.2.1) = true)) ∧
    ((∃ v ∈ vs, vertexOK v = false) →
      ∃ e, buildNavGraph (.jobj dfields) = .error e) ∧
    (∀ verts, buildVertices 0 vs = .ok verts →
      (∃ lv ∈ ls, laneOK verts lv = false) →
      ∃ e, buildNavGraph (.jobj dfields) = .error e) ∧
    (∀ i v, buildNavGraph (.jobj dfields) = .error (.badVertex i v) →
      vs.get? i = some v ∧ vertexOK v = false) ∧
    (∀ lv, buildNavGraph (.jobj dfields) = .error (.badLane lv) →
      lv ∈ ls ∧ ∃ verts, buildVertices 0 vs = .ok verts ∧
        laneOK verts lv = false) := by
  refine ⟨?_, ?_, ?_, ?_, ?_⟩
  · intro g hg
    cases hbv : buildVertices 0 vs with
    | error e =>
      rw [buildNavGraph_eq_errV hlev hvs hls hbv] at hg
      cases hg
    | ok verts =>
      cases hbl : buildLanes verts ls with
      | error e =>
        rw [buildNavGraph_eq_errL hlev hvs hls hbv hbl] at hg
        cases hg
      | ok lanes =>
        rw [buildNavGraph_eq_ok hlev hvs hls hbv hbl] at hg
        cases hg
        exact ⟨buildVertices_ok_all vs 0 verts hbv,
          buildLanes_ok_all ls verts lanes hbl,
          buildLanes_ok_refs ls verts lanes hbl⟩
  · intro hbad
    obtain ⟨e, he⟩ := buildVertices_error_of_bad vs 0 hbad
    exact ⟨e, buildNavGraph_eq_errV hlev hvs hls he⟩
  · intro verts hbv hbad
    obtain ⟨e, he⟩ := buildLanes_error_of_bad ls verts hbad
    exact ⟨e, buildNavGraph_eq_errL hlev hvs hls hbv he⟩
  · intro i v hg
    cases hbv : buildVertices 0 vs with
    | error e =>
      rw [buildNavGraph_eq_errV hlev hvs hls hbv] at hg
      cases hg
      obtain ⟨j, hj, hget, hb⟩ := buildVertices_badVertex vs 0 i v hbv
      have hij : j = i := by omega
      exact ⟨hij ▸ hget, hb⟩
    | ok verts =>
      cases hbl : buildLanes verts ls with
      | error e =>
        rw [buildNavGraph_eq_errL hlev hvs hls hbv hbl] at hg
        cases hg
        rcases buildLanes_error_shape ls verts _ hbl with ⟨lv, hlv⟩ | ⟨sl, hsl⟩
        · simp at hlv
        · simp at hsl
      | ok lanes =>
        rw [buildNavGraph_eq_ok hlev hvs hls hbv hbl] at hg
        cases hg
  · intro lv hg
    cases hbv : buildVertices 0 vs with
    | error e =>
      rw [buildNavGraph_eq_errV hlev hvs hls hbv] at hg
      cases hg
      obtain ⟨i, v, hiv⟩ := buildVertices_error_shape vs 0 _ hbv
      simp at hiv
    | ok verts =>
      cases hbl : buildLanes verts ls with
      | error e =>
        rw [buildNavGraph_eq_errL hlev hvs hls hbv hbl] at hg
        cases hg
        obtain ⟨hm, hb⟩ := buildLanes_badLane ls verts lv hbl
        exact ⟨hm, verts, rfl, hb⟩
      | ok lanes =>
        rw [buildNavGraph_eq_ok hlev hvs hls hbv hbl] at hg
        cases hg

/-- The vertex and lane records of the C7 counterexample document. -/
def cexVertex : JVal := .jarr [.jint 0, .jint 0, .jobj []]

def cexLane : JVal :=
  .jarr [.jint 0, .jint 0, .jobj [("speed_limit", JVal.jnull)]]

def cexDoc : JVal :=
  .jobj [("levels", .jobj [("level1", .jobj
    [("vertices", .jarr [cexVertex]),
     ("lanes", .jarr [cexLane])])])]

/-- C7 counterexample.  A document whose single vertex record and single
lane record pass every validation the claim lists (numeric coordinates,
metadata dict, integer endpoints referencing existing vertices, a
`speed_limit` key) still aborts construction: `float(None)` raises a
`TypeError` that names no record, so the outcome is neither a fully
constructed graph nor a validation error naming the offending record. -/
theorem C7_counterexample_unnamed_type_error :
    vertexOK cexVertex = true ∧
      laneOK [("0", ((0 : ℚ), (0 : ℚ), JVal.jobj []))] cexLane = true ∧
      buildVertices 0 [cexVertex] = .ok [("0", (0, 0, .jobj []))] ∧
      buildNavGraph cexDoc = .error (.floatTypeError .jnull) :=
  ⟨rfl, rfl, rfl, rfl⟩

theorem C7_graph_construction_all_or_nothing_witness :
    (lookupField [("levels", JVal.jobj [("level1", JVal.jobj
        [("vertices", JVal.jarr [cexVertex]),
         ("lanes", JVal.jarr [cexLane])])])] "levels"
      = some (.jobj [("level1", .jobj [("vertices", JVal.jarr [cexVertex]),
          ("lanes", JVal.jarr [cexLane])])])) ∧
    (lookupField [("vertices", JVal.jarr [cexVertex]),
        ("lanes", JVal.jarr [cexLane])] "vertices"
      = some (.jarr [cexVertex])) ∧
    (lookupField [("vertices", JVal.jarr [cexVertex]),
        ("lanes", JVal.jarr [cexLane])] "lanes"
      = some (.jarr [cexLane])) ∧
    ((∀ g, buildNavGraph (.jobj [("levels", JVal.jobj [("level1", JVal.jobj
        [("vertices", JVal.jarr [cexVertex]),
         ("lanes", JVal.jarr [cexLane])])])]) = .ok g →
      (∀ v ∈ [cexVertex], vertexOK v = true) ∧
      (∀ lv ∈ [cexLane], laneOK g.vertices lv = true) ∧
      (∀ lane ∈ g.lanes, g.vertices.any (fun p => p.1 = lane.1) = true ∧
        g.vertices.any (fun p => p.1 = lane.2.1) = true)) ∧
    ((∃ v ∈ [cexVertex], vertexOK v = false) →
      ∃ e, buildNavGraph (.jobj [("levels", JVal.jobj [("level1", JVal.jobj
        [("vertices", JVal.jarr [cexVertex]),
         ("lanes", JVal.jarr [cexLane])])])]) = .error e) ∧
    (∀ verts, buildVertices 0 [cexVertex] = .ok verts →
      (∃ lv ∈ [cexLane], laneOK verts lv = false) →
      ∃ e, buildNavGraph (.jobj [("levels", JVal.jobj [("level1", JVal.jobj
        [("vertices", JVal.jarr [cexVertex]),
         ("lanes", JVal.jarr [cexLane])])])]) = .error e) ∧
    (∀ i v, buildNavGraph (.jobj [("levels", JVal.jobj [("level1", JVal.jobj
        [("vertices", JVal.jarr [cexVertex]),
         ("lanes", JVal.jarr [cexLane])])])]) = .error (.badVertex i v) →
      [cexVertex].get? i = some v ∧ vertexOK v = false) ∧
    (∀ lv, buildNavGraph (.jobj [("levels", JVal.jobj [("level1", JVal.jobj
        [("vertices", JVal.jarr [cexVertex]),
         ("lanes", JVal.jarr [cexLane])])])]) = .error (.badLane lv) →
      lv ∈ [cexLane] ∧ ∃ verts, buildVertices 0 [cexVertex] = .ok verts ∧
        laneOK verts lv = false)) :=
  ⟨rfl, rfl, rfl,
    C7_graph_construction_all_or_nothing
      [("levels", JVal.jobj [("level1", JVal.jobj
        [("vertices", JVal.jarr [cexVertex]),
         ("lanes", JVal.jarr [cexLane])])])]
      [("vertices", JVal.jarr [cexVertex]), ("lanes", JVal.jarr [cexLane])]
      "level1" [] [cexVertex] [cexLane] rfl rfl rfl⟩

/-! ### Distance and heuristic (`navigation_graph.py` lines 74-80) -/

/-- `sqrt((x1-x2)**2 + (y1-y2)**2)` on two coordinate pairs. -/
noncomputable def calcDistPts (p q : ℚ × ℚ) : ℝ :=
  Real.sqrt (((p.1 : ℝ) - (q.1 : ℝ)) ^ 2 + ((p.2 : ℝ) - (q.2 : ℝ)) ^ 2)

/-- Coordinates of a vertex id in the loaded graph (`self.vertices[id]`). -/
def NavGraph.coord? (g : NavGraph) (vid : String) : Option (ℚ × ℚ) :=
  (g.vertices.find? (fun p => p.1 = vid)).map (fun p => (p.2.1, p.2.2.1))

/-- `NavigationGraph.calculate_distance` (lines 74-77).  Python raises
`KeyError` on a missing vertex id; modelled with junk value `0`, every
theorem about it carries presence hypotheses. -/
noncomputable def calculateDistance (g : NavGraph) (u v : String) : ℝ :=
  match g.coord? u, g.coord? v with
  | some p, some q => calcDistPts p q
  | _, _ => 0

/-- `NavigationGraph.heuristic` (lines 79-80). -/
noncomputable def heuristic (g : NavGraph) (node goal : String) : ℝ :=
  calculateDistance g node goal

/-- A coordinate pair as a point of the Euclidean plane (`ℂ` with its
standard distance). -/
def toC (p : ℚ × ℚ) : ℂ := ⟨(p.1 : ℝ), (p.2 : ℝ)⟩

lemma calcDistPts_eq_dist (p q : ℚ × ℚ) :
    calcDistPts p q = dist (toC p) (toC q) := by
  rw [Complex.dist_eq, Complex.abs_apply]
  unfold calcDistPts toC
  congr 1
  simp only [Complex.normSq_apply, Complex.sub_re, Complex.sub_im]
  ring

lemma calcDistPts_comm (p q : ℚ × ℚ) : calcDistPts p q = calcDistPts q p := by
  rw [calcDistPts_eq_dist, calcDistPts_eq_dist, dist_comm]

lemma calcDistPts_self (p : ℚ × ℚ) : calcDistPts p p = 0 := by
  rw [calcDistPts_eq_dist]
  exact dist_self _

lemma calcDistPts_triangle (p q r : ℚ × ℚ) :
    calcDistPts p r ≤ calcDistPts p q + calcDistPts q r := by
  rw [calcDistPts_eq_dist, calcDistPts_eq_dist, calcDistPts_eq_dist]
  exact dist_triangle _ _ _

/-- A lane path: consecutive vertices connected by a lane of the graph. -/
def IsLanePath (g : NavGraph) : List String → Prop :=
  List.Chain' (fun a b => ∃ q : ℚ, (a, b, q) ∈ g.lanes)

/-- The sum of the lane costs along a path, each cost being the Euclidean
distance of the lane's endpoints as stored by graph construction
(navigation_graph.py line 70). -/
noncomputable def pathCost (g : NavGraph) : List String → ℝ
  | a :: b :: rest => calculateDistance g a b + pathCost g (b :: rest)
  | _ => 0

lemma calculateDistance_some {g : NavGraph} {u v : String} {p q : ℚ × ℚ}
    (hu : g.coord? u = some p) (hv : g.coord? v = some q) :
    calculateDistance g u v = calcDistPts p q := by
  unfold calculateDistance
  rw [hu, hv]

lemma dist_le_pathCost (g : NavGraph) :
    ∀ (path : List String) (u goal : String),
      path.head? = some u → path.getLast? = some goal →
      IsLanePath g path →
      (∀ w ∈ path, (g.coord? w).isSome) →
      calculateDistance g u goal ≤ pathCost g path := by
  intro path
  induction path with
  | nil => intro u goal h; cases h
  | cons a rest ih =>
    intro u goal hhead hlast hchain hpres
    have hau : a = u := by
      simpa using hhead
    subst hau
    obtain ⟨pa, hpa⟩ := Option.isSome_iff_exists.mp
      (hpres a (List.mem_cons_self a rest))
    cases rest with
    | nil =>
      have hgoal : a = goal := by
        simpa using hlast
      subst hgoal
      rw [calculateDistance_some hpa hpa, calcDistPts_self]
      simp [pathCost]
    | cons b rest' =>
      obtain ⟨pb, hpb⟩ := Option.isSome_iff_exists.mp
        (hpres b (List.mem_cons_of_mem a (List.mem_cons_self b rest')))
      have hlast' : (b :: rest').getLast? = some goal := by
        rwa [List.getLast?_cons_cons] at hlast
      have hgmem : goal ∈ b :: rest' := by
        obtain ⟨hne, hg⟩ := List.mem_getLast?_eq_getLast (Option.mem_def.mpr hlast')
        rw [hg]
        exact List.getLast_mem hne
      obtain ⟨pg, hpg⟩ := Option.isSome_iff_exists.mp
        (hpres goal (List.mem_cons_of_mem a hgmem))
      have hchain' : IsLanePath g (b :: rest') :=
        (List.chain'_cons.mp hchain).2
      have hih := ih b goal rfl hlast' hchain'
        (fun w hw => hpres w (List.mem_cons_of_mem a hw))
      have htri : calculateDistance g a goal ≤
          calculateDistance g a b + calculateDistance g b goal := by
        rw [calculateDistance_some hpa hpg, calculateDistance_some hpa hpb,
          calculateDistance_some hpb hpg]
        exact calcDistPts_triangle pa pb pg
      calc calculateDistance g a goal
          ≤ calculateDistance g a b + calculateDistance g b goal := htri
        _ ≤ calculateDistance g a b + pathCost g (b :: rest') := by linarith
        _ = pathCost g (a :: b :: rest') := by rw [pathCost]

/-- C6.  For vertices present in the loaded graph, `calculate_distance`
is symmetric, and the straight-line `heuristic` is admissible: it never
exceeds the summed lane costs of any lane path from the vertex to the
goal. -/
theorem C6_distance_symmetric_and_heuristic_admissible
    (g : NavGraph) (u v : String)
    (hu : (g.coord? u).isSome = true) (hv : (g.coord? v).isSome = true) :
    calculateDistance g u v = calculateDistance g v u ∧
      (∀ (goal : String) (path : List String),
        path.head? = some u → path.getLast? = some goal →
        IsLanePath g path → (∀ w ∈ path, (g.coord? w).isSome) →
        heuristic g u goal ≤ pathCost g path) := by
  constructor
  · obtain ⟨p, hp⟩ := Option.isSome_iff_exists.mp hu
    obtain ⟨q, hq⟩ := Option.isSome_iff_exists.mp hv
    rw [calculateDistance_some hp hq, calculateDistance_some hq hp]
    exact calcDistPts_comm p q
  · intro goal path hh hl hc hp
    exact dist_le_pathCost g path u goal hh hl hc hp

/-- A two-vertex graph used to exercise the distance/heuristic theorem. -/
def gDemo : NavGraph :=
  { vertices := [("0", ((0 : ℚ), (0 : ℚ), JVal.jobj [])),
      ("1", ((1 : ℚ), (0 : ℚ), JVal.jobj []))],
    lanes := [("0", "1", 5)] }

theorem C6_distance_symmetric_and_heuristic_admissible_witness :
    ((gDemo.coord? "0").isSome = true ∧ (gDemo.coord? "1").isSome = true) ∧
      (calculateDistance gDemo "0" "1" = calculateDistance gDemo "1" "0" ∧
        (∀ (goal : String) (path : List String),
          path.head? = some "0" → path.getLast? = some goal →
          IsLanePath gDemo path → (∀ w ∈ path, (gDemo.coord? w).isSome) →
          heuristic gDemo "0" goal ≤ pathCost gDemo path)) :=
  ⟨⟨rfl, rfl⟩,
    C6_distance_symmetric_and_heuristic_admissible gDemo "0" "1" rfl rfl⟩

/-! ### Time-aware A* (`src/utils/robot_pathfinder.py`) and plain A*
(`A*algorithm.py`)

Both path finders read the same interface off their `NavigationGraph`:
the vertex-id set (`self.nav_graph.vertices`), the adjacency lists with
their stored costs (`self.nav_graph.graph.get(current, [])`) and the
heuristic.  The search is modelled generically over that data, costs and
times being rationals (every Python float is one).  The unbounded
`while open_set:` loop takes an explicit fuel parameter bounding the
number of iterations; a run that exhausts its fuel returns the same
`([], 0.0, [])` as an exhausted open set, and every theorem below is
quantified over all fuels. -/

structure SearchGraph where
  vertices : List String
  adj : String → List (String × ℚ)
  heur : String → String → ℚ

/-- A heap entry of the time-aware search: the tuple
`(f_score, current, path, cost, arrival_times)` of robot_pathfinder.py
line 26/61. -/
structure Entry where
  f : ℚ
  vtx : String
  path : List String
  cost : ℚ
  times : List ℚ
  deriving DecidableEq

/-- A heap entry of the plain search: `(f_score, current, path, cost)`. -/
structure EntryP where
  f : ℚ
  vtx : String
  path : List String
  cost : ℚ
  deriving DecidableEq

def qLtB (a b : ℚ) : Bool := decide (a < b)
def qEqB (a b : ℚ) : Bool := decide (a = b)
def strLtB (a b : String) : Bool := decide (a < b)
def strEqB (a b : String) : Bool := decide (a = b)

/-- Python's lexicographic list comparison, given the element-wise
strict order and equality (a strict prefix is smaller). -/
def listLtBy (lt eqb : α → α → Bool) : List α → List α → Bool
  | _, [] => false
  | [], _ :: _ => true
  | a :: as, b :: bs => lt a b || (eqb a b && listLtBy lt eqb as bs)

/-- Python's comparison of two heap tuples of the time-aware search:
lexicographic on (float, str, list of str, float, list of float). -/
def entryLt (e1 e2 : Entry) : Bool :=
  qLtB e1.f e2.f || (qEqB e1.f e2.f &&
    (strLtB e1.vtx e2.vtx || (strEqB e1.vtx e2.vtx &&
      (listLtBy strLtB strEqB e1.path e2.path || (decide (e1.path = e2.path) &&
        (qLtB e1.cost e2.cost || (qEqB e1.cost e2.cost &&
          listLtBy qLtB qEqB e1.times e2.times)))))))

/-- Python's comparison of two heap tuples of the plain search. -/
def entryLtP (e1 e2 : EntryP) : Bool :=
  qLtB e1.f e2.f || (qEqB e1.f e2.f &&
    (strLtB e1.vtx e2.vtx || (strEqB e1.vtx e2.vtx &&
      (listLtBy strLtB strEqB e1.path e2.path || (decide (e1.path = e2.path) &&
        qLtB e1.cost e2.cost)))))

/-- `heappop`: remove the least element (leftmost among compare-equal
ones — compare-equal heap tuples are identical values, so which copy a
real binary heap yields is observationally irrelevant). -/
def popMin (lt : α → α → Bool) : List α → Option (α × List α)
  | [] => none
  | a :: l =>
    match popMin lt l with
    | none => some (a, [])
    | some (m, r) => if lt m a then some (m, a :: r) else some (a, l)

/-- The neighbor loop of `RobotPathFinder.find_shortest_path`
(robot_pathfinder.py lines 45-63): skip closed neighbors, attempt the
lane reservation over `[current_time, current_time + distance/speed)` —
mutating the store whether or not the entry is finally pushed — and push
the extended state when the reservation holds and the new cost improves
`g_scores`. -/
def expand (sg : SearchGraph) (goal robot : String) (speed : ℚ)
    (cur : String) (path : List String) (cost : ℚ) (times : List ℚ)
    (curTime : ℚ) :
    List (String × ℚ) → List String → (String → Option ℚ) → TM →
    List Entry → (List Entry × (String → Option ℚ) × TM)
  | [], _, g, tm, acc => (acc, g, tm)
  | (nxt, d) :: ns, closed, g, tm, acc =>
    if nxt ∈ closed then
      expand sg goal robot speed cur path cost times curTime ns closed g tm acc
    else if (reserveLane tm (cur, nxt) robot curTime (curTime + d / speed)).1
      then
      if (match g nxt with
          | none => true
          | some gn => decide (cost + d < gn)) then
        expand sg goal robot speed cur path cost times curTime ns closed
          (fun x => if x = nxt then some (cost + d) else g x)
          (reserveLane tm (cur, nxt) robot curTime (curTime + d / speed)).2
          (acc ++ [⟨cost + d + sg.heur nxt goal, nxt, path ++ [nxt],
            cost + d, times ++ [curTime + d / speed]⟩])
      else
        expand sg goal robot speed cur path cost times curTime ns closed
          g (reserveLane tm (cur, nxt) robot curTime (curTime + d / speed)).2
          acc
    else
      expand sg goal robot speed cur path cost times curTime ns closed
        g (reserveLane tm (cur, nxt) robot curTime (curTime + d / speed)).2
        acc

/-- The `while open_set:` loop of the time-aware search
(robot_pathfinder.py lines 30-66), fuel-indexed.  `arrival_times[-1]`
is modelled by `getLastD 0`; the entries' time vectors are nonempty
throughout a run. -/
def searchLoop (sg : SearchGraph) (goal robot : String) (speed : ℚ) :
    ℕ → List Entry → List String → (String → Option ℚ) → TM →
    (List String × ℚ × List ℚ) × TM
  | 0, _, _, _, tm => (([], 0, []), tm)
  | fuel + 1, openS, closed, g, tm =>
    match popMin entryLt openS with
    | none => (([], 0, []), tm)
    | some (e, rest) =>
      if e.vtx = goal then ((e.path, e.cost, e.times), tm)
      else if e.vtx ∈ closed then
        searchLoop sg goal robot speed fuel rest closed g tm
      else
        searchLoop sg goal robot speed fuel
          (rest ++ (expand sg goal robot speed e.vtx e.path e.cost e.times
            (e.times.getLastD 0) (sg.adj e.vtx) (e.vtx :: closed) g tm []).1)
          (e.vtx :: closed)
          (expand sg goal robot speed e.vtx e.path e.cost e.times
            (e.times.getLastD 0) (sg.adj e.vtx) (e.vtx :: closed) g tm []).2.1
          (expand sg goal robot speed e.vtx e.path e.cost e.times
            (e.times.getLastD 0) (sg.adj e.vtx) (e.vtx :: closed) g tm []).2.2

/-- `RobotPathFinder.find_shortest_path` (robot_pathfinder.py lines
19-66): vertex-membership precheck, then the loop from the singleton
open set `[(0, start, [start], 0, [start_time])]` and
`g_scores = {start: 0}`. -/
def findShortestPath (sg : SearchGraph) (start goal robot : String)
    (startTime speed : ℚ) (fuel : ℕ) (tm : TM) :
    (List String × ℚ × List ℚ) × TM :=
  if start ∈ sg.vertices ∧ goal ∈ sg.vertices then
    searchLoop sg goal robot speed fuel [⟨0, start, [start], 0, [startTime]⟩]
      [] (fun x => if x = start then some 0 else none) tm
  else (([], 0, []), tm)

/-- The neighbor loop of the plain search (`A*algorithm.py` lines
68-81): identical except that there is no reservation gate and no
arrival-time bookkeeping. -/
def expandP (sg : SearchGraph) (goal : String) (cur : String)
    (path : List String) (cost : ℚ) :
    List (String × ℚ) → List String → (String → Option ℚ) → List EntryP →
    (List EntryP × (String → Option ℚ))
  | [], _, g, acc => (acc, g)
  | (nxt, d) :: ns, closed, g, acc =>
    if nxt ∈ closed then expandP sg goal cur path cost ns closed g acc
    else
      if (match g nxt with
          | none => true
          | some gn => decide (cost + d < gn)) then
        expandP sg goal cur path cost ns closed
          (fun x => if x = nxt then some (cost + d) else g x)
          (acc ++ [⟨cost + d + sg.heur nxt goal, nxt, path ++ [nxt],
            cost + d⟩])
      else expandP sg goal cur path cost ns closed g acc

/-- The `while open_set:` loop of the plain search (`A*algorithm.py`
lines 57-81), fuel-indexed. -/
def searchLoopP (sg : SearchGraph) (goal : String) :
    ℕ → List EntryP → List String → (String → Option ℚ) →
    List String × ℚ
  | 0, _, _, _ => ([], 0)
  | fuel + 1, openS, closed, g =>
    match popMin entryLtP openS with
    | none => ([], 0)
    | some (e, rest) =>
      if e.vtx = goal then (e.path, e.cost)
      else if e.vtx ∈ closed then searchLoopP sg goal fuel rest closed g
      else
        searchLoopP sg goal fuel
          (rest ++ (expandP sg goal e.vtx e.path e.cost (sg.adj e.vtx)
            (e.vtx :: closed) g []).1)
          (e.vtx :: closed)
          (expandP sg goal e.vtx e.path e.cost (sg.adj e.vtx)
            (e.vtx :: closed) g []).2

/-- `RobotPathFinder.find_shortest_path` of `A*algorithm.py` (lines
49-85). -/
def findShortestPathPlain (sg : SearchGraph) (start goal : String)
    (fuel : ℕ) : List String × ℚ :=
  if start ∈ sg.vertices ∧ goal ∈ sg.vertices then
    searchLoopP sg goal fuel [⟨0, start, [start], 0⟩] []
      (fun x => if x = start then some 0 else none)
  else ([], 0)

lemma popMin_mem {α : Type} {lt : α → α → Bool} :
    ∀ {l : List α} {e : α} {r : List α}, popMin lt l = some (e, r) → e ∈ l := by
  intro l
  induction l with
  | nil => intro e r h; cases h
  | cons a l ih =>
    intro e r h
    rw [popMin] at h
    split at h
    · cases h
      exact List.mem_cons_self a l
    · rename_i m r0 hm
      split at h
      · cases h
        exact List.mem_cons_of_mem a (ih hm)
      · cases h
        exact List.mem_cons_self a l

lemma popMin_sublist {α : Type} {lt : α → α → Bool} :
    ∀ {l : List α} {e : α} {r : List α}, popMin lt l = some (e, r) →
      r.Sublist l := by
  intro l
  induction l with
  | nil => intro e r h; cases h
  | cons a l ih =>
    intro e r h
    rw [popMin] at h
    split at h
    · cases h
      exact List.nil_sublist _
    · rename_i m r0 hm
      split at h
      · cases h
        exact List.Sublist.cons₂ a (ih hm)
      · cases h
        exact List.sublist_cons_self a l

lemma popMin_none {α : Type} {lt : α → α → Bool} :
    ∀ {l : List α}, popMin lt l = none → l = [] := by
  intro l
  cases l with
  | nil => intro _; rfl
  | cons a l =>
    intro h
    rw [popMin] at h
    split at h
    · cases h
    · split at h <;> cases h

/-- The cost relation of a well-formed route: consecutive vertices are
joined by lanes of the adjacency structure and the total is the sum of
the chosen lane costs. -/
inductive CostChain (sg : SearchGraph) : List String → ℚ → Prop
  | single (v : String) : CostChain sg [v] 0
  | snoc {p : List String} {c : ℚ} {u v : String} {d : ℚ} :
      CostChain sg p c → p.getLast? = some u → (v, d) ∈ sg.adj u →
      CostChain sg (p ++ [v]) (c + d)

lemma costChain_chain' {sg : SearchGraph} :
    ∀ {p : List String} {c : ℚ}, CostChain sg p c →
      List.Chain' (fun a b => ∃ d, (b, d) ∈ sg.adj a) p := by
  intro p c h
  induction h with
  | single v => simp
  | @snoc p c u v d _ hlast hadj ih =>
    refine List.Chain'.append ih (List.chain'_singleton v) ?_
    intro x hx y hy
    have hxu : p.getLast? = some x := Option.mem_def.mp hx
    rw [hlast] at hxu
    injection hxu with hxu
    have hyv : ([v].head?) = some y := Option.mem_def.mp hy
    injection hyv with hyv
    subst hxu
    subst hyv
    exact ⟨d, hadj⟩

/-- The entry pushed by `expand` for neighbor `(nxt, d)` of the popped
state. -/
def mkNew (sg : SearchGraph) (goal : String) (speed : ℚ) (cur : String)
    (path : List String) (cost : ℚ) (times : List ℚ) (curTime : ℚ)
    (nxt : String) (d : ℚ) : Entry :=
  ⟨cost + d + sg.heur nxt goal, nxt, path ++ [nxt], cost + d,
    times ++ [curTime + d / speed]⟩

lemma expand_entries (sg : SearchGraph) (goal robot : String) (speed : ℚ)
    (cur : String) (path : List String) (cost : ℚ) (times : List ℚ)
    (curTime : ℚ) :
    ∀ (ns : List (String × ℚ)) (closed : List String)
      (g : String → Option ℚ) (tm : TM) (acc : List Entry),
      ∀ e' ∈ (expand sg goal robot speed cur path cost times curTime
        ns closed g tm acc).1,
        e' ∈ acc ∨ ∃ nxt d, (nxt, d) ∈ ns ∧
          e' = mkNew sg goal speed cur path cost times curTime nxt d := by
  intro ns
  induction ns with
  | nil =>
    intro closed g tm acc e' h
    rw [expand] at h
    exact Or.inl h
  | cons nd ns ih =>
    obtain ⟨nxt, d⟩ := nd
    intro closed g tm acc e' h
    rw [expand] at h
    by_cases hcl : nxt ∈ closed
    · rw [if_pos hcl] at h
      rcases ih closed g tm acc e' h with hacc | ⟨n', d', hm, he⟩
      · exact Or.inl hacc
      · exact Or.inr ⟨n', d', List.mem_cons_of_mem _ hm, he⟩
    · rw [if_neg hcl] at h
      by_cases hres : (reserveLane tm (cur, nxt) robot curTime
          (curTime + d / speed)).1 = true
      · rw [if_pos hres] at h
        by_cases hg : (match g nxt with
            | none => true
            | some gn => decide (cost + d < gn)) = true
        · rw [if_pos hg] at h
          rcases ih closed _ _ _ e' h with hacc | ⟨n', d', hm, he⟩
          · rcases List.mem_append.mp hacc with hacc' | hnew
            · exact Or.inl hacc'
            · refine Or.inr ⟨nxt, d, List.mem_cons_self _ _, ?_⟩
              rw [List.mem_singleton.mp hnew]
              rfl
          · exact Or.inr ⟨n', d', List.mem_cons_of_mem _ hm, he⟩
        · rw [if_neg hg] at h
          rcases ih closed g _ acc e' h with hacc | ⟨n', d', hm, he⟩
          · exact Or.inl hacc
          · exact Or.inr ⟨n', d', List.mem_cons_of_mem _ hm, he⟩
      · rw [if_neg hres] at h
        rcases ih closed g _ acc e' h with hacc | ⟨n', d', hm, he⟩
        · exact Or.inl hacc
        · exact Or.inr ⟨n', d', List.mem_cons_of_mem _ hm, he⟩

/-- The invariant carried by every open-set entry of the time-aware
search started at `start` with `start_time = t0`. -/
def EntryInv (sg : SearchGraph) (start : String) (t0 : ℚ) (e : Entry) :
    Prop :=
  e.path ≠ [] ∧ e.path.head? = some start ∧
    e.path.getLast? = some e.vtx ∧ CostChain sg e.path e.cost ∧
    e.times.length = e.path.length ∧ e.times.head? = some t0 ∧
    List.Chain' (· ≤ ·) e.times

lemma entryInv_mkNew {sg : SearchGraph} {start goal : String} {t0 : ℚ}
    {e : Entry} (hinv : EntryInv sg start t0 e) {nxt : String} {d : ℚ}
    (hadj : (nxt, d) ∈ sg.adj e.vtx) (hd : 0 ≤ d) {speed : ℚ}
    (hspeed : 0 < speed) :
    EntryInv sg start t0
      (mkNew sg goal speed e.vtx e.path e.cost e.times
        (e.times.getLastD 0) nxt d) := by
  obtain ⟨hne, hhead, hlast, hchain, hlen, hthead, htchain⟩ := hinv
  have htne : e.times ≠ [] := by
    intro hcon
    rw [hcon] at hlen
    exact hne (List.length_eq_zero.mp hlen.symm)
  obtain ⟨L, hL⟩ := Option.isSome_iff_exists.mp (List.getLast?_isSome.mpr htne)
  have hLD : e.times.getLastD 0 = L := by
    rw [List.getLastD_eq_getLast?, hL]
    rfl
  refine ⟨by simp [mkNew], ?_, ?_, ?_, ?_, ?_, ?_⟩
  · show (e.path ++ [nxt]).head? = some start
    rw [List.head?_append_of_ne_nil _ hne]
    exact hhead
  · show (e.path ++ [nxt]).getLast? = some nxt
    exact List.getLast?_concat _
  · exact CostChain.snoc hchain hlast hadj
  · show (e.times ++ [_]).length = (e.path ++ [nxt]).length
    simp [hlen]
  · show (e.times ++ [_]).head? = some t0
    rw [List.head?_append_of_ne_nil _ htne]
    exact hthead
  · show List.Chain' (· ≤ ·) (e.times ++ [e.times.getLastD 0 + d / speed])
    refine List.Chain'.append htchain (List.chain'_singleton _) ?_
    intro x hx y hy
    have hxL : e.times.getLast? = some x := Option.mem_def.mp hx
    rw [hL] at hxL
    injection hxL with hxL
    have hyv : ([e.times.getLastD 0 + d / speed].head?) = some y :=
      Option.mem_def.mp hy
    injection hyv with hyv
    subst hxL
    subst hyv
    rw [hLD]
    have : 0 ≤ d / speed := div_nonneg hd (le_of_lt hspeed)
    linarith

lemma searchLoop_wf (sg : SearchGraph) (goal robot start : String)
    (speed t0 : ℚ)
    (hadj : ∀ u v c, (v, c) ∈ sg.adj u → 0 ≤ c) (hspeed : 0 < speed) :
    ∀ (fuel : ℕ) (openS : List Entry) (closed : List String)
      (g : String → Option ℚ) (tm : TM),
      (∀ e ∈ openS, EntryInv sg start t0 e) →
      (searchLoop sg goal robot speed fuel openS closed g tm).1.1 = [] ∨
      ((searchLoop sg goal robot speed fuel openS closed g tm).1.1.head?
          = some start ∧
        (searchLoop sg goal robot speed fuel openS closed g tm).1.1.getLast?
          = some goal ∧
        CostChain sg
          (searchLoop sg goal robot speed fuel openS closed g tm).1.1
          (searchLoop sg goal robot speed fuel openS closed g tm).1.2.1 ∧
        (searchLoop sg goal robot speed fuel openS closed g tm).1.2.2.length
          = (searchLoop sg goal robot speed fuel openS closed g tm).1.1.length ∧
        (searchLoop sg goal robot speed fuel openS closed g tm).1.2.2.head?
          = some t0 ∧
        List.Chain' (· ≤ ·)
          (searchLoop sg goal robot speed fuel openS closed g tm).1.2.2) := by
  intro fuel
  induction fuel with
  | zero =>
    intro openS closed g tm _
    left
    rw [searchLoop]
  | succ fuel ih =>
    intro openS closed g tm hop
    rw [searchLoop]
    split
    · left
      rfl
    · rename_i e rest hpop
      by_cases hg : e.vtx = goal
      · rw [if_pos hg]
        right
        obtain ⟨h1, h2, h3, h4, h5, h6, h7⟩ := hop e (popMin_mem hpop)
        exact ⟨h2, hg ▸ h3, h4, h5, h6, h7⟩
      · rw [if_neg hg]
        by_cases hc : e.vtx ∈ closed
        · rw [if_pos hc]
          exact ih rest closed g tm
            (fun e' he' => hop e' ((popMin_sublist hpop).subset he'))
        · rw [if_neg hc]
          refine ih _ _ _ _ ?_
          intro e' he'
          rcases List.mem_append.mp he' with hr | hx
          · exact hop e' ((popMin_sublist hpop).subset hr)
          · rcases expand_entries sg goal robot speed e.vtx e.path e.cost
                e.times (e.times.getLastD 0) (sg.adj e.vtx)
                (e.vtx :: closed) g tm [] e' hx with hacc | ⟨n', d', hm, he⟩
            · cases hacc
            · rw [he]
              exact entryInv_mkNew (hop e (popMin_mem hpop)) hm
                (hadj _ _ _ hm) hspeed

/-- C10.  Whenever `find_shortest_path` returns a non-empty path (for
nonnegative stored lane costs and positive speed), the path starts at
`start`, ends at `goal`, every consecutive pair of vertices is joined by
a lane of the graph, the returned cost is the sum of the traversed lane
costs, and the arrival-times vector has the path's length, starts at
`start_time` and is non-decreasing. -/
theorem C10_returned_routes_well_formed (sg : SearchGraph)
    (start goal robot : String) (startTime speed : ℚ) (fuel : ℕ) (tm : TM)
    (hadj : ∀ u v c, (v, c) ∈ sg.adj u → 0 ≤ c) (hspeed : 0 < speed)
    (p : List String) (c : ℚ) (ts : List ℚ)
    (hrun : (findShortestPath sg start goal robot startTime speed fuel tm).1
      = (p, c, ts)) (hne : p ≠ []) :
    p.head? = some start ∧ p.getLast? = some goal ∧ CostChain sg p c ∧
      List.Chain' (fun a b => ∃ d, (b, d) ∈ sg.adj a) p ∧
      ts.length = p.length ∧ ts.head? = some startTime ∧
      List.Chain' (· ≤ ·) ts := by
  unfold findShortestPath at hrun
  by_cases hmem : start ∈ sg.vertices ∧ goal ∈ sg.vertices
  · rw [if_pos hmem] at hrun
    have hinv : ∀ e ∈ [(⟨0, start, [start], 0, [startTime]⟩ : Entry)],
        EntryInv sg start startTime e := by
      intro e he
      rw [List.mem_singleton] at he
      subst he
      exact ⟨by simp, by simp, by simp, CostChain.single start, by simp,
        by simp, by simp⟩
    rcases searchLoop_wf sg goal robot start speed startTime hadj hspeed
        fuel _ [] _ tm hinv with hempty | hprops
    · rw [hrun] at hempty
      exact absurd hempty hne
    · rw [hrun] at hprops
      obtain ⟨h1, h2, h3, h4, h5, h6⟩ := hprops
      exact ⟨h1, h2, h3, costChain_chain' h3, h4, h5, h6⟩
  · rw [if_neg hmem] at hrun
    have hp : ([] : List String) = p := congrArg Prod.fst hrun
    exact absurd hp.symm hne

/-- A two-vertex graph with one lane of cost 2, as search input. -/
def sgW : SearchGraph :=
  { vertices := ["0", "1"],
    adj := fun u => if u = "0" then [("1", 2)] else [],
    heur := fun _ _ => 0 }

theorem C10_returned_routes_well_formed_witness :
    ((∀ u v c, (v, c) ∈ sgW.adj u → 0 ≤ c) ∧ (0 : ℚ) < 1 ∧
      (findShortestPath sgW "0" "1" "r" 0 1 5 TM.empty).1
        = (["0", "1"], 2, [0, 2]) ∧ (["0", "1"] : List String) ≠ []) ∧
    ((["0", "1"] : List String).head? = some "0" ∧
      (["0", "1"] : List String).getLast? = some "1" ∧
      CostChain sgW ["0", "1"] 2 ∧
      List.Chain' (fun a b => ∃ d, (b, d) ∈ sgW.adj a) ["0", "1"] ∧
      ([0, 2] : List ℚ).length = (["0", "1"] : List String).length ∧
      ([0, 2] : List ℚ).head? = some 0 ∧
      List.Chain' (· ≤ ·) ([0, 2] : List ℚ)) := by
  have hadj : ∀ u v c, (v, c) ∈ sgW.adj u → 0 ≤ c := by
    intro u v c h
    simp only [sgW] at h
    by_cases hu : u = "0"
    · rw [if_pos hu] at h
      rw [List.mem_singleton] at h
      cases h
      norm_num
    · rw [if_neg hu] at h
      cases h
  have hrun : (findShortestPath sgW "0" "1" "r" 0 1 5 TM.empty).1
      = (["0", "1"], 2, [0, 2]) := by
    norm_num [findShortestPath, searchLoop, expand, popMin, entryLt,
      qLtB, qEqB, strLtB, strEqB, listLtBy, reserveLane, overlapB, opposite,
      TM.empty, sgW]
    simp
  refine ⟨⟨hadj, by norm_num, hrun, by decide⟩, ?_⟩
  exact C10_returned_routes_well_formed sgW "0" "1" "r" 0 1 5 TM.empty
    hadj (by norm_num) ["0", "1"] 2 [0, 2] hrun (by decide)

/-- Forgetting the arrival-times component of a heap entry turns a
time-aware tuple into a plain-search tuple. -/
def Entry.strip (e : Entry) : EntryP := ⟨e.f, e.vtx, e.path, e.cost⟩

lemma qLtB_self (a : ℚ) : qLtB a a = false := by
  simp [qLtB]

lemma strLtB_self (a : String) : strLtB a a = false := by
  simp only [strLtB, decide_eq_false_iff_not]
  exact lt_irrefl a

lemma listLtBy_self {α : Type} (lt eqb : α → α → Bool)
    (hlt : ∀ x, lt x x = false) :
    ∀ l : List α, listLtBy lt eqb l l = false := by
  intro l
  induction l with
  | nil => rfl
  | cons a l ih =>
    rw [listLtBy, hlt a, ih]
    simp

/-- On entries whose strips determine their times, the Python tuple
comparison of the time-aware search agrees with the plain one: the
arrival-times component is only reached when the first four components
tie, and then the times tie as well. -/
lemma entryLt_eq_entryLtP (e1 e2 : Entry)
    (h : e1.strip = e2.strip → e1.times = e2.times) :
    entryLt e1 e2 = entryLtP e1.strip e2.strip := by
  unfold entryLt entryLtP Entry.strip
  by_cases h1 : e1.f = e2.f
  · by_cases h2 : e1.vtx = e2.vtx
    · by_cases h3 : e1.path = e2.path
      · by_cases h4 : e1.cost = e2.cost
        · have ht : e1.times = e2.times := by
            refine h ?_
            show EntryP.mk e1.f e1.vtx e1.path e1.cost
              = EntryP.mk e2.f e2.vtx e2.path e2.cost
            rw [h1, h2, h3, h4]
          simp [qEqB, qLtB_self, strLtB_self, h1, h2, h3, h4, ht,
            listLtBy_self qLtB qEqB qLtB_self,
            listLtBy_self strLtB strEqB strLtB_self]
        · simp [qEqB, h1, h2, h3, h4]
      · simp [qEqB, strEqB, h1, h2, h3]
    · simp [qEqB, strEqB, h1, h2]
  · simp [qEqB, h1]

/-- Entries with equal strips (and hence equal times, by the invariant
maintained below) are equal. -/
def StripInj (l : List Entry) : Prop :=
  ∀ e1 ∈ l, ∀ e2 ∈ l, e1.strip = e2.strip → e1 = e2

lemma popMin_strip :
    ∀ {l : List Entry}, StripInj l →
      popMin entryLtP (l.map Entry.strip)
        = (popMin entryLt l).map
            (fun x => (x.1.strip, x.2.map Entry.strip)) := by
  intro l
  induction l with
  | nil => intro _; rfl
  | cons a l ih =>
    intro hinj
    have hinj' : StripInj l := fun e1 h1 e2 h2 =>
      hinj e1 (List.mem_cons_of_mem a h1) e2 (List.mem_cons_of_mem a h2)
    rw [List.map_cons, popMin, popMin, ih hinj']
    cases hm : popMin entryLt l with
    | none =>
      rw [popMin_none hm]
      simp
    | some er =>
      obtain ⟨m, r⟩ := er
      have hmem : m ∈ a :: l := List.mem_cons_of_mem a (popMin_mem hm)
      have heq := entryLt_eq_entryLtP m a (fun hs =>
        congrArg Entry.times (hinj m hmem a (List.mem_cons_self a l) hs))
      simp only [Option.map_some']
      by_cases hlt : entryLt m a = true
      · rw [if_pos hlt, if_pos (heq ▸ hlt)]
        simp
      · rw [if_neg hlt, if_neg (fun hc => hlt (heq ▸ hc))]
        simp

/-- During a search whose store only holds reservations made by the
searching robot itself on lanes whose source vertex is already closed,
every `reserve_lane` attempt of the neighbor loop succeeds, and the loop
behaves exactly like the plain neighbor loop on stripped entries; the
store invariants are maintained. -/
lemma expand_strip (sg : SearchGraph) (goal robot : String) (speed : ℚ)
    (cur : String) (path : List String) (cost : ℚ) (times : List ℚ)
    (curTime : ℚ) :
    ∀ (ns : List (String × ℚ)) (closed : List String)
      (g : String → Option ℚ) (tm : TM) (acc : List Entry),
      (∀ a b, tm.res (a, b) ≠ [] → a ∈ closed) →
      (∀ l r, r ∈ tm.res l → r.1 = robot) →
      cur ∈ closed →
      ((expandP sg goal cur path cost ns closed g (acc.map Entry.strip)).1
        = ((expand sg goal robot speed cur path cost times curTime
            ns closed g tm acc).1).map Entry.strip ∧
      (expandP sg goal cur path cost ns closed g (acc.map Entry.strip)).2
        = (expand sg goal robot speed cur path cost times curTime
            ns closed g tm acc).2.1 ∧
      (∀ a b, ((expand sg goal robot speed cur path cost times curTime
          ns closed g tm acc).2.2).res (a, b) ≠ [] → a ∈ closed) ∧
      (∀ l r, r ∈ ((expand sg goal robot speed cur path cost times curTime
          ns closed g tm acc).2.2).res l → r.1 = robot)) := by
  intro ns
  induction ns with
  | nil =>
    intro closed g tm acc h1 h2 hcur
    rw [expand, expandP]
    exact ⟨rfl, rfl, h1, h2⟩
  | cons nd ns ih =>
    obtain ⟨nxt, d⟩ := nd
    intro closed g tm acc h1 h2 hcur
    rw [expand, expandP]
    by_cases hcl : nxt ∈ closed
    · rw [if_pos hcl, if_pos hcl]
      exact ih closed g tm acc h1 h2 hcur
    · rw [if_neg hcl, if_neg hcl]
      have hres : (reserveLane tm (cur, nxt) robot curTime
          (curTime + d / speed)).1 = true := by
        refine reserveLane_checks_success ?_ ?_
        · intro r hr
          simp only [opposite] at hr
          exfalso
          refine hcl (h1 nxt cur ?_)
          intro hc
          rw [hc] at hr
          cases hr
        · intro r hr hner
          exact absurd (h2 _ r hr) hner
      rw [if_pos hres]
      have h1' : ∀ a b, (reserveLane tm (cur, nxt) robot curTime
          (curTime + d / speed)).2.res (a, b) ≠ [] → a ∈ closed := by
        intro a b hne
        rcases reserveLane_cases tm (cur, nxt) robot curTime
            (curTime + d / speed) with ⟨hf, _⟩ | ⟨_, hresr, _, _⟩
        · rw [hf] at hres; cases hres
        · simp only [hresr] at hne
          by_cases hab : ((a, b) : LaneId) = (cur, nxt)
          · rw [show a = cur from congrArg Prod.fst hab]
            exact hcur
          · rw [if_neg hab] at hne
            exact h1 a b hne
      have h2' : ∀ l r, r ∈ (reserveLane tm (cur, nxt) robot curTime
          (curTime + d / speed)).2.res l → r.1 = robot := by
        intro l r hr
        rcases reserveLane_cases tm (cur, nxt) robot curTime
            (curTime + d / speed) with ⟨hf, _⟩ | ⟨_, hresr, _, _⟩
        · rw [hf] at hres; cases hres
        · simp only [hresr] at hr
          by_cases hl : l = ((cur, nxt) : LaneId)
          · rw [if_pos hl] at hr
            rcases List.mem_append.mp hr with hr' | hr'
            · exact h2 _ r hr'
            · rw [List.mem_singleton.mp hr']
          · rw [if_neg hl] at hr
            exact h2 _ r hr
      by_cases hg : (match g nxt with
          | none => true
          | some gn => decide (cost + d < gn)) = true
      · rw [if_pos hg, if_pos hg]
        have hmap : (acc.map Entry.strip) ++
            [(⟨cost + d + sg.heur nxt goal, nxt, path ++ [nxt],
              cost + d⟩ : EntryP)]
            = (acc ++ [(⟨cost + d + sg.heur nxt goal, nxt, path ++ [nxt],
                cost + d, times ++ [curTime + d / speed]⟩ : Entry)]).map
                Entry.strip := by
          rw [List.map_append]
          rfl
        rw [hmap]
        exact ih closed (fun x => if x = nxt then some (cost + d) else g x)
          _ _ h1' h2' hcur
      · rw [if_neg hg, if_neg hg]
        exact ih closed g _ acc h1' h2' hcur

lemma searchLoop_succ_none (sg : SearchGraph) (goal robot : String)
    (speed : ℚ) (fuel : ℕ) (openS : List Entry) (closed : List String)
    (g : String → Option ℚ) (tm : TM)
    (hm : popMin entryLt openS = none) :
    searchLoop sg goal robot speed (fuel + 1) openS closed g tm
      = (([], 0, []), tm) := by
  rw [searchLoop, hm]

lemma searchLoop_succ_some (sg : SearchGraph) (goal robot : String)
    (speed : ℚ) (fuel : ℕ) (openS : List Entry) (closed : List String)
    (g : String → Option ℚ) (tm : TM) (e : Entry) (rest : List Entry)
    (hm : popMin entryLt openS = some (e, rest)) :
    searchLoop sg goal robot speed (fuel + 1) openS closed g tm
      = if e.vtx = goal then ((e.path, e.cost, e.times), tm)
        else if e.vtx ∈ closed then
          searchLoop sg goal robot speed fuel rest closed g tm
        else
          searchLoop sg goal robot speed fuel
            (rest ++ (expand sg goal robot speed e.vtx e.path e.cost e.times
              (e.times.getLastD 0) (sg.adj e.vtx) (e.vtx :: closed)
              g tm []).1)
            (e.vtx :: closed)
            (expand sg goal robot speed e.vtx e.path e.cost e.times
              (e.times.getLastD 0) (sg.adj e.vtx) (e.vtx :: closed)
              g tm []).2.1
            (expand sg goal robot speed e.vtx e.path e.cost e.times
              (e.times.getLastD 0) (sg.adj e.vtx) (e.vtx :: closed)
              g tm []).2.2 := by
  rw [searchLoop, hm]

lemma searchLoopP_succ_none (sg : SearchGraph) (goal : String) (fuel : ℕ)
    (openS : List EntryP) (closed : List String) (g : String → Option ℚ)
    (hm : popMin entryLtP openS = none) :
    searchLoopP sg goal (fuel + 1) openS closed g = ([], 0) := by
  rw [searchLoopP, hm]

lemma searchLoopP_succ_some (sg : SearchGraph) (goal : String) (fuel : ℕ)
    (openS : List EntryP) (closed : List String) (g : String → Option ℚ)
    (e : EntryP) (rest : List EntryP)
    (hm : popMin entryLtP openS = some (e, rest)) :
    searchLoopP sg goal (fuel + 1) openS closed g
      = if e.vtx = goal then (e.path, e.cost)
        else if e.vtx ∈ closed then searchLoopP sg goal fuel rest closed g
        else
          searchLoopP sg goal fuel
            (rest ++ (expandP sg goal e.vtx e.path e.cost (sg.adj e.vtx)
              (e.vtx :: closed) g []).1)
            (e.vtx :: closed)
            (expandP sg goal e.vtx e.path e.cost (sg.adj e.vtx)
              (e.vtx :: closed) g []).2 := by
  rw [searchLoopP, hm]

/-- Running from a store whose reservations are all held by the
searching robot on lanes with closed source vertices — in particular
from the empty store — the time-aware search is the plain A* search on
the stripped open set: same popped tuples, same `g_scores`, and every
neighbor reservation succeeds. -/
lemma searchLoop_strip (sg : SearchGraph) (goal robot : String)
    (speed : ℚ) :
    ∀ (fuel : ℕ) (openS : List Entry) (closed : List String)
      (g : String → Option ℚ) (tm : TM),
      StripInj openS →
      (∀ e ∈ openS, e.path ≠ [] ∧ e.path.getLast? = some e.vtx) →
      (∀ e ∈ openS, ∀ v, e.path.dropLast.getLast? = some v → v ∈ closed) →
      (∀ a b, tm.res (a, b) ≠ [] → a ∈ closed) →
      (∀ l r, r ∈ tm.res l → r.1 = robot) →
      searchLoopP sg goal fuel (openS.map Entry.strip) closed g
        = ((searchLoop sg goal robot speed fuel openS closed g tm).1.1,
           (searchLoop sg goal robot speed fuel openS closed g tm).1.2.1) := by
  intro fuel
  induction fuel with
  | zero =>
    intro openS closed g tm _ _ _ _ _
    rw [searchLoop, searchLoopP]
  | succ fuel ih =>
    intro openS closed g tm hinj hshape hpen htm1 htm2
    cases hm : popMin entryLt openS with
    | none =>
      have hmP : popMin entryLtP (openS.map Entry.strip) = none := by
        rw [popMin_strip hinj, hm]
        rfl
      rw [searchLoop_succ_none sg goal robot speed fuel openS closed g tm hm,
        searchLoopP_succ_none sg goal fuel _ closed g hmP]
    | some er =>
      obtain ⟨e, rest⟩ := er
      have he : e ∈ openS := popMin_mem hm
      have hsub : rest.Sublist openS := popMin_sublist hm
      have hmP : popMin entryLtP (openS.map Entry.strip)
          = some (e.strip, rest.map Entry.strip) := by
        rw [popMin_strip hinj, hm]
        rfl
      rw [searchLoop_succ_some sg goal robot speed fuel openS closed g tm
        e rest hm, searchLoopP_succ_some sg goal fuel _ closed g
        e.strip (rest.map Entry.strip) hmP]
      simp only [Entry.strip]
      by_cases hg : e.vtx = goal
      · rw [if_pos hg, if_pos hg]
      · rw [if_neg hg, if_neg hg]
        by_cases hc : e.vtx ∈ closed
        · rw [if_pos hc, if_pos hc]
          exact ih rest closed g tm
            (fun e1 h1 e2 h2 => hinj e1 (hsub.subset h1) e2 (hsub.subset h2))
            (fun e1 h1 => hshape e1 (hsub.subset h1))
            (fun e1 h1 => hpen e1 (hsub.subset h1)) htm1 htm2
        · rw [if_neg hc, if_neg hc]
          have hshape_e := hshape e he
          have htm1w : ∀ a b, tm.res (a, b) ≠ [] → a ∈ e.vtx :: closed :=
            fun a b hne => List.mem_cons_of_mem _ (htm1 a b hne)
          obtain ⟨hE, hG, htm1', htm2'⟩ := expand_strip sg goal robot speed
            e.vtx e.path e.cost e.times (e.times.getLastD 0) (sg.adj e.vtx)
            (e.vtx :: closed) g tm [] htm1w htm2 (List.mem_cons_self _ _)
          have hnew : ∀ e' ∈ (expand sg goal robot speed e.vtx e.path e.cost
              e.times (e.times.getLastD 0) (sg.adj e.vtx) (e.vtx :: closed)
              g tm []).1,
              ∃ nxt d, (nxt, d) ∈ sg.adj e.vtx ∧
                e' = mkNew sg goal speed e.vtx e.path e.cost e.times
                  (e.times.getLastD 0) nxt d := by
            intro e' h'
            rcases expand_entries sg goal robot speed e.vtx e.path e.cost
                e.times (e.times.getLastD 0) (sg.adj e.vtx) (e.vtx :: closed)
                g tm [] e' h' with h0 | h0
            · cases h0
            · exact h0
          have hpen_new : ∀ e' ∈ (expand sg goal robot speed e.vtx e.path
              e.cost e.times (e.times.getLastD 0) (sg.adj e.vtx)
              (e.vtx :: closed) g tm []).1,
              e'.path.dropLast.getLast? = some e.vtx := by
            intro e' h'
            obtain ⟨nxt, d, _, he'⟩ := hnew e' h'
            rw [he']
            simp [mkNew, hshape_e.2]
          have hinj' : StripInj (rest ++ (expand sg goal robot speed e.vtx
              e.path e.cost e.times (e.times.getLastD 0) (sg.adj e.vtx)
              (e.vtx :: closed) g tm []).1) := by
            intro e1 h1 e2 h2 hs
            rcases List.mem_append.mp h1 with h1r | h1n <;>
              rcases List.mem_append.mp h2 with h2r | h2n
            · exact hinj e1 (hsub.subset h1r) e2 (hsub.subset h2r) hs
            · exfalso
              refine hc (hpen e1 (hsub.subset h1r) e.vtx ?_)
              have hp : e1.path = e2.path := congrArg EntryP.path hs
              rw [hp]
              exact hpen_new e2 h2n
            · exfalso
              refine hc (hpen e2 (hsub.subset h2r) e.vtx ?_)
              have hp : e2.path = e1.path := (congrArg EntryP.path hs).symm
              rw [hp]
              exact hpen_new e1 h1n
            · obtain ⟨n1, d1, _, he1⟩ := hnew e1 h1n
              obtain ⟨n2, d2, _, he2⟩ := hnew e2 h2n
              rw [he1, he2] at hs ⊢
              have hv : n1 = n2 := congrArg EntryP.vtx hs
              subst hv
              have hd : d1 = d2 := by
                have := congrArg EntryP.cost hs
                simp only [Entry.strip, mkNew] at this
                linarith
              rw [hd]
          have hshape' : ∀ e' ∈ rest ++ (expand sg goal robot speed e.vtx
              e.path e.cost e.times (e.times.getLastD 0) (sg.adj e.vtx)
              (e.vtx :: closed) g tm []).1,
              e'.path ≠ [] ∧ e'.path.getLast? = some e'.vtx := by
            intro e' h'
            rcases List.mem_append.mp h' with h'r | h'n
            · exact hshape e' (hsub.subset h'r)
            · obtain ⟨nxt, d, _, he'⟩ := hnew e' h'n
              rw [he']
              constructor
              · simp [mkNew]
              · simp [mkNew]
          have hpen' : ∀ e' ∈ rest ++ (expand sg goal robot speed e.vtx
              e.path e.cost e.times (e.times.getLastD 0) (sg.adj e.vtx)
              (e.vtx :: closed) g tm []).1,
              ∀ v, e'.path.dropLast.getLast? = some v → v ∈ e.vtx :: closed := by
            intro e' h' v hv
            rcases List.mem_append.mp h' with h'r | h'n
            · exact List.mem_cons_of_mem _ (hpen e' (hsub.subset h'r) v hv)
            · rw [hpen_new e' h'n] at hv
              injection hv with hv
              rw [← hv]
              exact List.mem_cons_self _ _
          simp only [List.map_nil] at hE hG
          rw [hE, hG, ← List.map_append]
          exact ih _ (e.vtx :: closed) _ _ hinj' hshape' hpen' htm1' htm2'

lemma expand_nil (sg : SearchGraph) (goal robot : String) (speed : ℚ)
    (cur : String) (path : List String) (cost : ℚ) (times : List ℚ)
    (curTime : ℚ) (closed : List String) (g : String → Option ℚ) (tm : TM)
    (acc : List Entry) :
    expand sg goal robot speed cur path cost times curTime [] closed g tm acc
      = (acc, g, tm) := rfl

lemma expand_closed (sg : SearchGraph) (goal robot : String) (speed : ℚ)
    (cur : String) (path : List String) (cost : ℚ) (times : List ℚ)
    (curTime : ℚ) (nxt : String) (d : ℚ) (ns : List (String × ℚ))
    (closed : List String) (g : String → Option ℚ) (tm : TM)
    (acc : List Entry) (hc : nxt ∈ closed) :
    expand sg goal robot speed cur path cost times curTime ((nxt, d) :: ns)
        closed g tm acc
      = expand sg goal robot speed cur path cost times curTime ns closed g tm
          acc := by
  rw [expand, if_pos hc]

lemma expand_block (sg : SearchGraph) (goal robot : String) (speed : ℚ)
    (cur : String) (path : List String) (cost : ℚ) (times : List ℚ)
    (curTime : ℚ) (nxt : String) (d : ℚ) (ns : List (String × ℚ))
    (closed : List String) (g : String → Option ℚ) (tm : TM)
    (acc : List Entry) (hc : ¬ nxt ∈ closed)
    (hr : (reserveLane tm (cur, nxt) robot curTime
      (curTime + d / speed)).1 = false) :
    expand sg goal robot speed cur path cost times curTime ((nxt, d) :: ns)
        closed g tm acc
      = expand sg goal robot speed cur path cost times curTime ns closed g
          (reserveLane tm (cur, nxt) robot curTime (curTime + d / speed)).2
          acc := by
  rw [expand, if_neg hc]
  simp only [hr, Bool.false_eq_true, if_false]

lemma expand_push (sg : SearchGraph) (goal robot : String) (speed : ℚ)
    (cur : String) (path : List String) (cost : ℚ) (times : List ℚ)
    (curTime : ℚ) (nxt : String) (d : ℚ) (ns : List (String × ℚ))
    (closed : List String) (g : String → Option ℚ) (tm : TM)
    (acc : List Entry) (hc : ¬ nxt ∈ closed)
    (hr : (reserveLane tm (cur, nxt) robot curTime
      (curTime + d / speed)).1 = true)
    (hg : (match g nxt with
        | none => true
        | some gn => decide (cost + d < gn)) = true) :
    expand sg goal robot speed cur path cost times curTime ((nxt, d) :: ns)
        closed g tm acc
      = expand sg goal robot speed cur path cost times curTime ns closed
          (fun x => if x = nxt then some (cost + d) else g x)
          (reserveLane tm (cur, nxt) robot curTime (curTime + d / speed)).2
          (acc ++ [⟨cost + d + sg.heur nxt goal, nxt, path ++ [nxt],
            cost + d, times ++ [curTime + d / speed]⟩]) := by
  rw [expand, if_neg hc]
  simp only [hr, if_true, hg]

def xDemo (v : String) : ℚ :=
  if v = "0" then 0 else if v = "1" then 1 else if v = "2" then 2 else -3

def sgDemo : SearchGraph :=
  { vertices := ["0", "1", "2", "3"],
    adj := fun v =>
      if v = "0" then [("1", 1), ("3", 3)]
      else if v = "1" then [("2", 1)]
      else if v = "3" then [("1", 4)]
      else [],
    heur := fun v g => |xDemo v - xDemo g| }

def tmBlocked : TM :=
  { res := fun l => if l = ("1", "2") then [("other", 0, 3)] else [],
    dirs := fun l => if l = ("1", "2") then some "other" else none,
    time := 0 }

def g0demo : String → Option ℚ := fun x => if x = "0" then some 0 else none

def g1demo : String → Option ℚ :=
  fun x => if x = "3" then some 3 else if x = "1" then some 1 else g0demo x

def tmA : TM := (reserveLane tmBlocked ("0", "1") "r" 0 1).2

def tmB : TM := (reserveLane tmA ("0", "3") "r" 0 3).2

lemma heur12 : sgDemo.heur "1" "2" = 1 := by
  simp [sgDemo, xDemo]
  norm_num

lemma heur32 : sgDemo.heur "3" "2" = 5 := by
  simp [sgDemo, xDemo]
  norm_num

lemma expand_iter1 : expand sgDemo "2" "r" 1 "0" ["0"] 0 [0] 0
    [("1", 1), ("3", 3)] ["0"] g0demo tmBlocked [] =
    ([⟨2, "1", ["0", "1"], 1, [0, 1]⟩, ⟨8, "3", ["0", "3"], 3, [0, 3]⟩],
      g1demo, tmB) := by
  have hr1 : (reserveLane tmBlocked ("0", "1") "r" 0 ((0:ℚ) + 1 / 1)).1
      = true := by
    rw [show (0:ℚ) + 1 / 1 = 1 by norm_num]
    decide
  have hg1 : (match g0demo "1" with
      | none => true
      | some gn => decide ((0:ℚ) + 1 < gn)) = true := rfl
  rw [expand_push sgDemo "2" "r" 1 "0" ["0"] 0 [0] 0 "1" 1 _ _ g0demo
    tmBlocked [] (by decide) hr1 hg1]
  norm_num [heur12]
  have hr2 : (reserveLane (reserveLane tmBlocked ("0", "1") "r" 0 1).2
      ("0", "3") "r" 0 ((0:ℚ) + 3 / 1)).1 = true := by
    rw [show (0:ℚ) + 3 / 1 = 3 by norm_num]
    decide
  have hg2 : (match (fun x => if x = "1" then some (1:ℚ) else g0demo x) "3"
        with
      | none => true
      | some gn => decide ((0:ℚ) + 3 < gn)) = true := rfl
  rw [expand_push sgDemo "2" "r" 1 "0" ["0"] 0 [0] 0 "3" 3 _ _ _
    _ _ (by decide) hr2 hg2]
  norm_num [heur32]
  rfl

def tmC : TM := (reserveLane tmB ("1", "2") "r" 1 2).2

lemma adj0 : sgDemo.adj "0" = [("1", 1), ("3", 3)] := by simp [sgDemo]

lemma adj1 : sgDemo.adj "1" = [("2", 1)] := by simp [sgDemo]

lemma adj3 : sgDemo.adj "3" = [("1", 4)] := by simp [sgDemo]

lemma expand_iter2 : expand sgDemo "2" "r" 1 "1" ["0", "1"] 1 [0, 1] 1
    [("2", 1)] ["1", "0"] g1demo tmB [] = ([], g1demo, tmC) := by
  have hr : (reserveLane tmB ("1", "2") "r" 1 ((1:ℚ) + 1 / 1)).1
      = false := by
    rw [show (1:ℚ) + 1 / 1 = 2 by norm_num]
    decide
  rw [expand_block sgDemo "2" "r" 1 "1" ["0", "1"] 1 [0, 1] 1 "2" 1 _ _
    g1demo tmB [] (by decide) hr]
  norm_num
  rfl

lemma expand_iter3 : expand sgDemo "2" "r" 1 "3" ["0", "3"] 3 [0, 3] 3
    [("1", 4)] ["3", "1", "0"] g1demo tmC [] = ([], g1demo, tmC) := by
  rw [expand_closed sgDemo "2" "r" 1 "3" ["0", "3"] 3 [0, 3] 3 "1" 4 _ _
    g1demo tmC [] (by decide)]
  rfl

lemma loop_iter1 : searchLoop sgDemo "2" "r" 1 6
      [⟨0, "0", ["0"], 0, [0]⟩] [] g0demo tmBlocked
    = searchLoop sgDemo "2" "r" 1 5
      [⟨2, "1", ["0", "1"], 1, [0, 1]⟩, ⟨8, "3", ["0", "3"], 3, [0, 3]⟩]
      ["0"] g1demo tmB := by
  rw [show (6:ℕ) = 5 + 1 from rfl]
  rw [searchLoop_succ_some sgDemo "2" "r" 1 5 [⟨0, "0", ["0"], 0, [0]⟩]
    [] g0demo tmBlocked ⟨0, "0", ["0"], 0, [0]⟩ [] rfl]
  rw [if_neg (by decide), if_neg (by decide)]
  dsimp only
  rw [show ([0] : List ℚ).getLastD 0 = 0 from rfl, adj0, expand_iter1]
  rfl

lemma loop_iter2 : searchLoop sgDemo "2" "r" 1 5
      [⟨2, "1", ["0", "1"], 1, [0, 1]⟩, ⟨8, "3", ["0", "3"], 3, [0, 3]⟩]
      ["0"] g1demo tmB
    = searchLoop sgDemo "2" "r" 1 4
      [⟨8, "3", ["0", "3"], 3, [0, 3]⟩] ["1", "0"] g1demo tmC := by
  rw [show (5:ℕ) = 4 + 1 from rfl]
  rw [searchLoop_succ_some sgDemo "2" "r" 1 4
    [⟨2, "1", ["0", "1"], 1, [0, 1]⟩, ⟨8, "3", ["0", "3"], 3, [0, 3]⟩]
    ["0"] g1demo tmB
    ⟨2, "1", ["0", "1"], 1, [0, 1]⟩ [⟨8, "3", ["0", "3"], 3, [0, 3]⟩] rfl]
  rw [if_neg (by decide), if_neg (by decide)]
  dsimp only
  rw [show ([0, 1] : List ℚ).getLastD 0 = 1 from rfl, adj1, expand_iter2]
  rfl

lemma loop_iter3 : searchLoop sgDemo "2" "r" 1 4
      [⟨8, "3", ["0", "3"], 3, [0, 3]⟩] ["1", "0"] g1demo tmC
    = searchLoop sgDemo "2" "r" 1 3 [] ["3", "1", "0"] g1demo tmC := by
  rw [show (4:ℕ) = 3 + 1 from rfl]
  rw [searchLoop_succ_some sgDemo "2" "r" 1 3
    [⟨8, "3", ["0", "3"], 3, [0, 3]⟩] ["1", "0"] g1demo tmC
    ⟨8, "3", ["0", "3"], 3, [0, 3]⟩ [] rfl]
  rw [if_neg (by decide), if_neg (by decide)]
  dsimp only
  rw [show ([0, 3] : List ℚ).getLastD 0 = 3 from rfl, adj3, expand_iter3]
  rfl

lemma loop_iter4 : searchLoop sgDemo "2" "r" 1 3 [] ["3", "1", "0"] g1demo
    tmC = (([], 0, []), tmC) := by
  rw [show (3:ℕ) = 2 + 1 from rfl]
  exact searchLoop_succ_none sgDemo "2" "r" 1 2 [] _ g1demo tmC rfl

lemma demo_run : findShortestPath sgDemo "0" "2" "r" 0 1 6 tmBlocked
    = (([], 0, []), tmC) := by
  rw [findShortestPath, if_pos (by constructor <;> simp [sgDemo])]
  rw [show (fun x => if x = "0" then some (0:ℚ) else none) = g0demo
    from rfl]
  rw [loop_iter1, loop_iter2, loop_iter3, loop_iter4]

/-- C4 (counterexample to the general minimum-cost-feasibility part).  On
the four-vertex graph `sgDemo` (colinear coordinates, so the heuristic is
the exact Euclidean distance) with lane `1-2` already reserved by robot
`other` over `[0,3)`, the time-aware search for robot `r` from `0` to `2`
at speed 1 starting at time 0 returns the empty route — yet the detour
`0 → 3 → 1 → 2` is feasible given that reservation state: its three lanes
exist in the graph with costs 3, 4 and 1, and the three corresponding
reservations over `[0,3)`, `[3,7)` and `[7,8)` (speed-1 travel times) all
succeed in sequence.  The search misses it because vertex `1` enters the
closed set when the direct lane `1-2` is denied, so the detour through
`1` at a later, conflict-free time is never examined. -/
theorem C4_counterexample_blocked_search_misses_feasible_route :
    (findShortestPath sgDemo "0" "2" "r" 0 1 6 tmBlocked).1 = ([], 0, [])
    ∧ ("3", 3) ∈ sgDemo.adj "0"
    ∧ ("1", 4) ∈ sgDemo.adj "3"
    ∧ ("2", 1) ∈ sgDemo.adj "1"
    ∧ (reserveLane tmBlocked ("0", "3") "r" 0 3).1 = true
    ∧ (reserveLane (reserveLane tmBlocked ("0", "3") "r" 0 3).2
        ("3", "1") "r" 3 7).1 = true
    ∧ (reserveLane (reserveLane (reserveLane tmBlocked ("0", "3") "r" 0
        3).2 ("3", "1") "r" 3 7).2 ("1", "2") "r" 7 8).1 = true := by
  refine ⟨?_, by decide, by decide, by decide, by decide, by decide,
    by decide⟩
  rw [demo_run]

/-- C4 (amended): for every graph, start, goal, robot id, start time,
speed and fuel bound, the time-aware `find_shortest_path` run against the
empty `TrafficManager` returns exactly the route and cost of the plain
(reservation-free) A* of `A*algorithm.py`: with no pre-existing
reservations every in-search reservation attempt succeeds, and the two
searches walk the same states.  The stronger part of the original claim —
that the search returns a minimum-cost feasible route for an arbitrary
reservation state — is false (see the counterexample above). -/
theorem C4_empty_store_reproduces_plain_astar (sg : SearchGraph)
    (start goal robot : String) (startTime speed : ℚ) (fuel : ℕ) :
    findShortestPathPlain sg start goal fuel
      = ((findShortestPath sg start goal robot startTime speed fuel
            TM.empty).1.1,
         (findShortestPath sg start goal robot startTime speed fuel
            TM.empty).1.2.1) := by
  rw [findShortestPath, findShortestPathPlain]
  by_cases h : start ∈ sg.vertices ∧ goal ∈ sg.vertices
  · rw [if_pos h, if_pos h]
    have hinj : StripInj [⟨0, start, [start], 0, [startTime]⟩] := by
      intro e1 h1 e2 h2 _
      rw [List.mem_singleton] at h1 h2
      rw [h1, h2]
    have hshape : ∀ e ∈ [(⟨0, start, [start], 0, [startTime]⟩ : Entry)],
        e.path ≠ [] ∧ e.path.getLast? = some e.vtx := by
      intro e he
      rw [List.mem_singleton] at he
      subst he
      exact ⟨List.cons_ne_nil _ _, rfl⟩
    have hpen : ∀ e ∈ [(⟨0, start, [start], 0, [startTime]⟩ : Entry)],
        ∀ v, e.path.dropLast.getLast? = some v →
          v ∈ ([] : List String) := by
      intro e he v hv
      rw [List.mem_singleton] at he
      subst he
      simp at hv
    have htm1 : ∀ a b, TM.empty.res (a, b) ≠ [] →
        a ∈ ([] : List String) := by
      intro a b hab
      exact absurd rfl hab
    have htm2 : ∀ l r, r ∈ TM.empty.res l → r.1 = robot := by
      intro l r hr
      exact absurd hr (List.not_mem_nil r)
    exact searchLoop_strip sg goal robot speed fuel
      [⟨0, start, [start], 0, [startTime]⟩] []
      (fun x => if x = start then some 0 else none) TM.empty
      hinj hshape hpen htm1 htm2
  · rw [if_neg h, if_neg h]
